import Mathlib

/-!
Shallow embedding of the spectrogram computation and rendering engine of the
repository (`src/spectrogram-generator.ts` together with `src/constants.ts`):
window functions, the iterative radix-2 FFT, power and dB conversion, frame
segmentation, the global dB range scan, temporal resampling, frequency-scale
mapping, intensity mapping and color mapping.

Modelling conventions: JavaScript numbers are real numbers (`ℝ`), except where
the code manipulates the `Infinity` / `-Infinity` sentinels explicitly, where
`EReal` is used.  `Math.floor` becomes `Int.floor` (or `Nat.floor` where the
argument is nonnegative).  The interleaved `[re, im, re, im, ...]`
`Float32Array` of the FFT becomes a `List ℂ`, one complex number per pair.
In-place array updates inside loops become folds over index ranges; within one
butterfly pass every loop iteration reads and writes only its own disjoint pair
of slots, so the fold is the exact meaning of the loop.  The JS idiom
`a || b` (which substitutes `b` when `a` is `undefined` or `0`) is embedded by
`jsOrDefault`.
-/

open Real

noncomputable section

namespace Spectrogram

-- `DB_CONSTANTS` from `src/constants.ts`.
namespace DB_CONSTANTS

def MIN_DB_DISPLAY : ℝ := -120

def MAX_DB_THEORETICAL : ℝ := 0

def REFERENCE_LEVEL : ℝ := 1.0

def MIN_POWER_VALUE : ℝ := 1e-12

end DB_CONSTANTS

-- `FFT_CONSTANTS` from `src/constants.ts`.
namespace FFT_CONSTANTS

def DEFAULT_FFT_SIZE : ℕ := 2048

def DEFAULT_HOP_SIZE : ℕ := 512

end FFT_CONSTANTS

-- `WINDOW_CONSTANTS` from `src/constants.ts`.
namespace WINDOW_CONSTANTS

def HANNING_COEFFICIENT : ℝ := 0.5

def HAMMING_COEFFICIENT_A : ℝ := 0.54

def HAMMING_COEFFICIENT_B : ℝ := 0.46

def BLACKMAN_COEFFICIENT_A : ℝ := 0.42

def BLACKMAN_COEFFICIENT_B : ℝ := 0.5

def BLACKMAN_COEFFICIENT_C : ℝ := 0.08

def RECTANGULAR_COEFFICIENT : ℝ := 1.0

end WINDOW_CONSTANTS

-- `DEFAULTS` from `src/constants.ts` (the analysis-parameter entries).
namespace DEFAULTS

def FFT_SIZE : ℕ := FFT_CONSTANTS.DEFAULT_FFT_SIZE

def HOP_SIZE : ℕ := FFT_CONSTANTS.DEFAULT_HOP_SIZE

end DEFAULTS

/-- `WindowType` from `src/enums.ts`. -/
inductive WindowType
| rectangular
| hanning
| hamming
| blackman
deriving DecidableEq

/-- `ColorPreset` from `src/enums.ts`. -/
inductive ColorPreset
| gray
| invgray
| heat
| inferno
deriving DecidableEq

/-- `FrequencyScale` from `src/enums.ts`. -/
inductive FrequencyScale
| linear
| log
| mel
| bark
| erb
deriving DecidableEq

/-- `MappingType` from `src/enums.ts`. -/
inductive MappingType
| linear
| log
| power
| sqrt
| sigmoid
deriving DecidableEq

/-- The `'average' | 'peak'` strategy tag of `OPTIONS.DOWNSAMPLE_STRATEGY`. -/
inductive DownsampleStrategy
| average
| peak
deriving DecidableEq

/-- The `'bilinear' | 'linear'` strategy tag of `OPTIONS.UPSAMPLE_STRATEGY`. -/
inductive UpsampleStrategy
| bilinear
| linear
deriving DecidableEq

/-- `OPTIONS.DOWNSAMPLE_STRATEGY` in `src/spectrogram-generator.ts` is `'peak'`. -/
def OPTIONS_DOWNSAMPLE_STRATEGY : DownsampleStrategy := .peak

/-- `OPTIONS.UPSAMPLE_STRATEGY` in `src/spectrogram-generator.ts` is `'bilinear'`. -/
def OPTIONS_UPSAMPLE_STRATEGY : UpsampleStrategy := .bilinear

/-- The fields of `AudioData` (`src/audio-processor.ts`) consumed by the core. -/
structure AudioData where
  samples : List ℝ
  sampleRate : ℝ
  duration : ℝ
  channels : ℕ

/-- `SpectrogramFrame` from `src/types.ts`. -/
structure SpectrogramFrame where
  frequencyBins : List ℝ
  timePosition : ℝ
  frameDuration : ℝ

/-- `SpectrogramData` from `src/types.ts`. -/
structure SpectrogramData where
  frames : List SpectrogramFrame
  sampleRate : ℝ
  fftSize : ℕ
  hopSize : ℕ
  duration : ℝ
  numFrequencyBins : ℕ
  frequencyResolution : ℝ
  timeResolution : ℝ

/-- `FFTResult` from `src/types.ts`; each entry of `complexValues` stands for
one interleaved `[real, imag]` pair of the `Float32Array`. -/
structure FFTResult where
  complexValues : List ℂ
  size : ℕ

/-- `PowerSpectrum` from `src/types.ts`. -/
structure PowerSpectrum where
  powerValues : List ℝ
  numBins : ℕ
  frequencyResolution : ℝ

/-- `DBSpectrum` from `src/types.ts`.  The `minDb`/`maxDb` fields come from
`Math.min(...)`/`Math.max(...)` over a possibly empty list, whose JS values
start from `Infinity`/`-Infinity`, hence `EReal`. -/
structure DBSpectrum where
  dbValues : List ℝ
  numBins : ℕ
  referenceLevel : ℝ
  minDb : EReal
  maxDb : EReal

/-- `GlobalDBRange` from `src/types.ts`; the computation manipulates the
`Infinity` sentinels, hence `EReal` fields. -/
structure GlobalDBRange where
  minDb : EReal
  maxDb : EReal
  dynamicRange : EReal

/-- An RGB triple as produced by the color maps (`Math.floor` outputs). -/
structure RGB where
  r : ℤ
  g : ℤ
  b : ℤ
deriving DecidableEq

/-- JS `a || b` on an optional number: `undefined` and `0` are falsy. -/
def jsOrDefault (a : Option ℝ) (b : ℝ) : ℝ :=
  match a with
  | none => b
  | some v => if v = 0 then b else v

/-- JS indexing `l[i]` with a (possibly negative / out-of-range) integer index:
`undefined` outside the range. -/
def jsIndex (l : List ℝ) (i : ℤ) : Option ℝ :=
  if 0 ≤ i ∧ i < (l.length : ℤ) then some (l.getD i.toNat 0) else none

/-- JS indexing that is only used where the source guarantees the index is in
range; out-of-range reads default to `0`. -/
def jsIndexD (l : List ℝ) (i : ℤ) : ℝ :=
  if 0 ≤ i then l.getD i.toNat 0 else 0

/-- `applyWindow` (`src/spectrogram-generator.ts`, lines 626-665): multiply each
sample by the window coefficient of the selected window type. -/
def applyWindow (samples : List ℝ) (windowType : WindowType) : List ℝ :=
  (List.range samples.length).map fun (i : ℕ) =>
    let windowValue : ℝ :=
      match windowType with
      | .hanning =>
          WINDOW_CONSTANTS.HANNING_COEFFICIENT *
            (1 - Real.cos ((2 * π * (i : ℝ)) / ((samples.length : ℝ) - 1)))
      | .hamming =>
          WINDOW_CONSTANTS.HAMMING_COEFFICIENT_A -
            WINDOW_CONSTANTS.HAMMING_COEFFICIENT_B *
              Real.cos ((2 * π * (i : ℝ)) / ((samples.length : ℝ) - 1))
      | .blackman =>
          WINDOW_CONSTANTS.BLACKMAN_COEFFICIENT_A -
            WINDOW_CONSTANTS.BLACKMAN_COEFFICIENT_B *
              Real.cos ((2 * π * (i : ℝ)) / ((samples.length : ℝ) - 1)) +
            WINDOW_CONSTANTS.BLACKMAN_COEFFICIENT_C *
              Real.cos ((4 * π * (i : ℝ)) / ((samples.length : ℝ) - 1))
      | .rectangular => WINDOW_CONSTANTS.RECTANGULAR_COEFFICIENT
    samples.getD i 0 * windowValue

/-- The loop body accumulator of `reverseBits` (`src/spectrogram-generator.ts`,
lines 738-745): `result = (result << 1) | (x & 1); x >>= 1`, iterated
`bits` times. -/
def reverseBitsAux : ℕ → ℕ → ℕ → ℕ
| 0, _, result => result
| bits + 1, x, result => reverseBitsAux bits (x / 2) (2 * result + x % 2)

/-- `reverseBits(x, bits)`. -/
def reverseBits (x bits : ℕ) : ℕ := reverseBitsAux bits x 0

/-- The twiddle factor `cos(angle) + i·sin(angle)` with
`angle = (-2π / size) · i` used in one butterfly (`performFFT`); the source
computes the products `cos·oddReal - sin·oddImag` and `cos·oddImag + sin·oddReal`,
which is exactly multiplication by this complex number. -/
def twiddle (size i : ℕ) : ℂ :=
  ⟨Real.cos ((-2 * π) / (size : ℝ) * i), Real.sin ((-2 * π) / (size : ℝ) * i)⟩

/-- One butterfly: read the `even`/`odd` pair at `start + i` and
`start + i + halfSize`, write `even ± twiddle·odd` back to the same two slots,
leaving every other slot unchanged. -/
def butterflyStep (v : ℕ → ℂ) (halfSize size start i : ℕ) : ℕ → ℂ :=
  let t := twiddle size i
  let even := v (start + i)
  let odd := v (start + i + halfSize)
  fun j =>
    if j = start + i + halfSize then even - t * odd
    else if j = start + i then even + t * odd
    else v j

/-- The inner loop `for (i = 0; i < halfSize; i++)` of `performFFT` over one
block starting at `start`. -/
def blockPass (v : ℕ → ℂ) (halfSize size start : ℕ) : ℕ → ℂ :=
  (List.range halfSize).foldl (fun acc i => butterflyStep acc halfSize size start i) v

/-- The middle loop `for (start = 0; start < n; start += size)` of `performFFT`:
`⌈n / size⌉` blocks. -/
def fullPass (v : ℕ → ℂ) (n size : ℕ) : ℕ → ℂ :=
  (List.range ((n + size - 1) / size)).foldl
    (fun acc b => blockPass acc (size / 2) size (b * size)) v

/-- The outer loop `for (size = 2; size <= n; size *= 2)` of `performFFT`:
sizes `2, 4, …, 2^⌊log2 n⌋`. -/
def fftLoop (v : ℕ → ℂ) (n : ℕ) : ℕ → ℂ :=
  (List.range (Nat.log2 n)).foldl (fun acc p => fullPass acc n (2 ^ (p + 1))) v

/-- `performFFT` (`src/spectrogram-generator.ts`, lines 681-726): bit-reversal
permutation (`complexValues[i] = samples[reverseBits(i, Math.log2(n))]` with
zero imaginary part — the loop inside `reverseBits` runs `⌈log2 n⌉` times,
which `Nat.clog 2 n` captures, and equals `log2 n` for a power of two),
followed by the Cooley-Tukey butterfly passes. -/
def performFFT (samples : List ℝ) : FFTResult :=
  let n := samples.length
  let init : ℕ → ℂ := fun i => ((samples.getD (reverseBits i (Nat.clog 2 n)) 0 : ℝ) : ℂ)
  { complexValues := (List.range n).map (fftLoop init n)
    size := n }

/-- `calculatePowerSpectrum` (`src/spectrogram-generator.ts`, lines 542-561):
`power[i] = re(i)² + im(i)²` for the first `fftSize / 2` bins. -/
def calculatePowerSpectrum (fftResult : FFTResult) (fftSize : ℕ) : PowerSpectrum :=
  { powerValues := (List.range (fftSize / 2)).map fun i =>
      let re := (fftResult.complexValues.getD i 0).re
      let im := (fftResult.complexValues.getD i 0).im
      re * re + im * im
    numBins := fftSize / 2
    frequencyResolution := if 0 < fftResult.size then 1.0 / (fftResult.size : ℝ) else 0 }

/-- `convertToDBSpectrum` (`src/spectrogram-generator.ts`, lines 578-607):
normalize each power by `fftSize²`, convert to `10·log10(p / reference)` when
above the power floor, otherwise clamp to the display floor. -/
def convertToDBSpectrum (powerSpectrum : PowerSpectrum) (fftSize : ℕ) : DBSpectrum :=
  let normalizationFactor : ℝ := (fftSize : ℝ) * (fftSize : ℝ)
  let referenceLevel := DB_CONSTANTS.REFERENCE_LEVEL
  let dbValues := powerSpectrum.powerValues.map fun power =>
    let normalizedPower := power / normalizationFactor
    if DB_CONSTANTS.MIN_POWER_VALUE < normalizedPower then
      10 * Real.logb 10 (normalizedPower / referenceLevel)
    else
      DB_CONSTANTS.MIN_DB_DISPLAY
  { dbValues := dbValues
    numBins := powerSpectrum.numBins
    referenceLevel := referenceLevel
    minDb := dbValues.foldr (fun v acc => min (v : EReal) acc) ⊤
    maxDb := dbValues.foldr (fun v acc => max (v : EReal) acc) ⊥ }

/-- The per-frame sample slice of `calculateSpectrogram` (lines 476-487): copy
`fftSize` samples starting at `startFrame + frame·hopSize`, zero-padding past
the end of the audio. -/
def frameSlice (a : AudioData) (startFrame : ℤ) (fftSize hopSize frame : ℕ) : List ℝ :=
  let startSample : ℤ := startFrame + frame * hopSize
  let endSample : ℤ := min (startSample + fftSize) (a.samples.length : ℤ)
  let availableSamples : ℤ := endSample - startSample
  (List.range fftSize).map fun i =>
    if (i : ℤ) < availableSamples then jsIndexD a.samples (startSample + i) else 0

/-- The body of the frame loop of `calculateSpectrogram` (lines 476-510):
window (hard-coded `WindowType.HANNING` at the call site) → FFT → power → dB. -/
def spectrogramFrame (a : AudioData) (startTime : ℝ) (startFrame : ℤ)
    (fftSize hopSize frame : ℕ) : SpectrogramFrame :=
  let windowedSamples := applyWindow (frameSlice a startFrame fftSize hopSize frame)
    WindowType.hanning
  let fftResult := performFFT windowedSamples
  let powerSpectrum := calculatePowerSpectrum fftResult fftSize
  let dbSpectrum := convertToDBSpectrum powerSpectrum fftSize
  { frequencyBins := dbSpectrum.dbValues
    timePosition := startTime + ((frame : ℝ) * hopSize) / a.sampleRate
    frameDuration := (hopSize : ℝ) / a.sampleRate }

/-- `calculateSpectrogram` (`src/spectrogram-generator.ts`, lines 457-527). -/
def calculateSpectrogram (a : AudioData) (startTime duration : ℝ)
    (fftSize hopSize : ℕ) : SpectrogramData :=
  let actualDuration := min duration (a.duration - startTime)
  let startFrame : ℤ := ⌊startTime * a.sampleRate⌋
  let endFrame : ℤ := ⌊(startTime + actualDuration) * a.sampleRate⌋
  let numFrames : ℤ := ⌊((endFrame - startFrame - fftSize : ℤ) : ℝ) / (hopSize : ℝ)⌋ + 1
  { frames := (List.range numFrames.toNat).map fun frame =>
      spectrogramFrame a startTime startFrame fftSize hopSize frame
    sampleRate := a.sampleRate
    fftSize := fftSize
    hopSize := hopSize
    duration := actualDuration
    numFrequencyBins := fftSize / 2
    frequencyResolution := a.sampleRate / (fftSize : ℝ)
    timeResolution := (hopSize : ℝ) / a.sampleRate }

/-- The scan-and-fallback part of `calculateGlobalDbRange` (lines 363-390):
fold every dB value of every frame, keeping min/max of values strictly above
the display floor, starting from the `Infinity` / `-Infinity` sentinels, then
substitute the floor / theoretical ceiling when a sentinel survives. -/
def dbScanRange (d : SpectrogramData) : GlobalDBRange :=
  let scan : EReal × EReal := d.frames.foldl
    (fun acc frame => frame.frequencyBins.foldl
      (fun acc db =>
        if DB_CONSTANTS.MIN_DB_DISPLAY < db then
          (min acc.1 (db : EReal), max acc.2 (db : EReal))
        else acc)
      acc)
    (⊤, ⊥)
  let globalMinDb : EReal :=
    if scan.1 = ⊤ then (DB_CONSTANTS.MIN_DB_DISPLAY : EReal) else scan.1
  let globalMaxDb : EReal :=
    if scan.2 = ⊥ then (DB_CONSTANTS.MAX_DB_THEORETICAL : EReal) else scan.2
  { minDb := globalMinDb
    maxDb := globalMaxDb
    dynamicRange := globalMaxDb - globalMinDb }

/-- `calculateGlobalDbRange` (`src/spectrogram-generator.ts`, lines 360-391):
a full-duration spectrogram with the fixed `DEFAULTS.FFT_SIZE` and
`DEFAULTS.HOP_SIZE`, then the min/max scan. -/
def calculateGlobalDbRange (audioData : AudioData) : GlobalDBRange :=
  dbScanRange (calculateSpectrogram audioData 0 audioData.duration
    DEFAULTS.FFT_SIZE DEFAULTS.HOP_SIZE)

/-- `Math.floor(i * step)` with `step = numFrames / targetWidth`: the start of
the `i`-th downsampling window (shared by both downsampling strategies). -/
def downsampleWindowStart (numFrames targetWidth i : ℕ) : ℕ :=
  ⌊(i : ℝ) * ((numFrames : ℝ) / (targetWidth : ℝ))⌋₊

/-- `Math.min(Math.floor((i + 1) * step), numFrames)`: the (exclusive) end of
the `i`-th downsampling window. -/
def downsampleWindowEnd (numFrames targetWidth i : ℕ) : ℕ :=
  min ⌊((i : ℝ) + 1) * ((numFrames : ℝ) / (targetWidth : ℝ))⌋₊ numFrames

/-- `averageDownsample` (`src/spectrogram-generator.ts`, lines 849-885). -/
def averageDownsample (spectrogramData : List (List ℝ)) (targetWidth : ℕ) :
    List (List ℝ) :=
  let numFrames := spectrogramData.length
  (List.range targetWidth).map fun i =>
    let startFrame := downsampleWindowStart numFrames targetWidth i
    let endFrame := downsampleWindowEnd numFrames targetWidth i
    let numFramesInWindow := endFrame - startFrame
    if numFramesInWindow = 0 then
      spectrogramData.getD (min startFrame (numFrames - 1)) []
    else
      let windowFrames := (spectrogramData.drop startFrame).take numFramesInWindow
      (List.range (spectrogramData.headD []).length).map fun freqIdx =>
        (windowFrames.foldl
          (fun acc frame =>
            if freqIdx < frame.length then acc + frame.getD freqIdx 0 else acc) 0) /
          (numFramesInWindow : ℝ)

/-- `peakPreservingDownsample` (`src/spectrogram-generator.ts`, lines 894-925):
per-bin maximum over each window, accumulated from the `-Infinity` fill
(`EReal ⊥`); the resulting JS numbers are real for every bin that receives at
least one update, which `EReal.toReal` extracts. -/
def peakPreservingDownsample (spectrogramData : List (List ℝ)) (targetWidth : ℕ) :
    List (List ℝ) :=
  let numFrames := spectrogramData.length
  (List.range targetWidth).map fun i =>
    let startFrame := downsampleWindowStart numFrames targetWidth i
    let endFrame := downsampleWindowEnd numFrames targetWidth i
    let numFramesInWindow := endFrame - startFrame
    if numFramesInWindow = 0 then
      spectrogramData.getD (min startFrame (numFrames - 1)) []
    else
      let windowFrames := (spectrogramData.drop startFrame).take numFramesInWindow
      (List.range (spectrogramData.headD []).length).map fun freqIdx =>
        (windowFrames.foldl
          (fun acc frame =>
            if freqIdx < frame.length then max acc ((frame.getD freqIdx 0 : ℝ) : EReal)
            else acc) ⊥).toReal

/-- `linearUpsample` (`src/spectrogram-generator.ts`, lines 935-958). -/
def linearUpsample (spectrogramData : List (List ℝ)) (targetWidth : ℕ) :
    List (List ℝ) :=
  let numFrames := spectrogramData.length
  (List.range targetWidth).map fun i =>
    let frameIndex : ℝ :=
      if targetWidth = 1 then 0
      else ((i : ℝ) / ((targetWidth : ℝ) - 1)) * ((numFrames : ℝ) - 1)
    let frameIndexFloor := ⌊frameIndex⌋₊
    let frameIndexCeil := min (frameIndexFloor + 1) (numFrames - 1)
    let timeInterpFactor := frameIndex - (frameIndexFloor : ℝ)
    let frameFloor := spectrogramData.getD frameIndexFloor []
    let frameCeil := spectrogramData.getD frameIndexCeil []
    frameFloor.mapIdx fun freqIndex value =>
      value + timeInterpFactor * (frameCeil.getD freqIndex 0 - value)

/-- `bilinearUpsample` (`src/spectrogram-generator.ts`, lines 967-1008). -/
def bilinearUpsample (spectrogramData : List (List ℝ)) (targetWidth : ℕ) :
    List (List ℝ) :=
  let numFrames := spectrogramData.length
  let numFreqBins := (spectrogramData.headD []).length
  (List.range targetWidth).map fun i =>
    let frameIndex : ℝ := ((i : ℝ) / ((targetWidth : ℝ) - 1)) * ((numFrames : ℝ) - 1)
    let frameIndexFloor := ⌊frameIndex⌋₊
    let frameIndexCeil := min (frameIndexFloor + 1) (numFrames - 1)
    let timeInterpFactor := frameIndex - (frameIndexFloor : ℝ)
    let frameFloor := spectrogramData.getD frameIndexFloor []
    let frameCeil := spectrogramData.getD frameIndexCeil []
    (List.range numFreqBins).map fun freqIdx =>
      let v00 := frameFloor.getD freqIdx 0
      let v10 := frameCeil.getD freqIdx 0
      let freqInterpFactor := Int.fract ((freqIdx : ℝ) / ((numFreqBins : ℝ) - 1))
      let v01 := if freqIdx < numFreqBins - 1 then frameFloor.getD (freqIdx + 1) 0 else v00
      let v11 := if freqIdx < numFreqBins - 1 then frameCeil.getD (freqIdx + 1) 0 else v10
      let c0 := v00 * (1 - timeInterpFactor) + v10 * timeInterpFactor
      let c1 := v01 * (1 - timeInterpFactor) + v11 * timeInterpFactor
      c0 * (1 - freqInterpFactor) + c1 * freqInterpFactor

/-- `selectUpsamplingStrategy` (lines 1049-1056). -/
def selectUpsamplingStrategy (spectrogramData : List (List ℝ)) (targetWidth : ℕ) :
    List (List ℝ) :=
  match OPTIONS_UPSAMPLE_STRATEGY with
  | .linear => linearUpsample spectrogramData targetWidth
  | .bilinear => bilinearUpsample spectrogramData targetWidth

/-- `selectDownsampleStrategy` (lines 1064-1072). -/
def selectDownsampleStrategy (spectrogramData : List (List ℝ)) (targetWidth : ℕ) :
    List (List ℝ) :=
  match OPTIONS_DOWNSAMPLE_STRATEGY with
  | .peak => peakPreservingDownsample spectrogramData targetWidth
  | .average => averageDownsample spectrogramData targetWidth

/-- `resampleSpectrogram` (`src/spectrogram-generator.ts`, lines 1018-1047). -/
def resampleSpectrogram (spectrogramData : List (List ℝ)) (targetWidth : ℕ) :
    List (List ℝ) :=
  let numFrames := spectrogramData.length
  if numFrames = 0 then []
  else if numFrames = targetWidth then spectrogramData
  else if numFrames < targetWidth then selectUpsamplingStrategy spectrogramData targetWidth
  else selectDownsampleStrategy spectrogramData targetWidth

/-- `hzToMel` (line 1137). -/
def hzToMel (hz : ℝ) : ℝ := 2595 * Real.logb 10 (1 + hz / 700)

/-- `melToHz` (line 1144). -/
def melToHz (mel : ℝ) : ℝ := 700 * ((10 : ℝ) ^ (mel / 2595) - 1)

/-- `hzToBark` (line 1151). -/
def hzToBark (hz : ℝ) : ℝ :=
  13 * Real.arctan (0.00076 * hz) + 3.5 * Real.arctan ((hz / 7500) ^ (2 : ℕ))

/-- `barkToHz` (lines 1158-1169). -/
def barkToHz (bark : ℝ) : ℝ :=
  if bark ≤ 0 then 0
  else if 26 ≤ bark then 20000
  else 1960 * (bark + 0.53) / (26.81 - bark)

/-- `hzToErb` (line 1174). -/
def hzToErb (hz : ℝ) : ℝ := 21.4 * Real.logb 10 (1 + hz / 229)

/-- `erbToHz` (line 1181). -/
def erbToHz (erb : ℝ) : ℝ := 229 * ((10 : ℝ) ^ (erb / 21.4) - 1)

/-- `getFrequencyIndex` (`src/spectrogram-generator.ts`, lines 1077-1132):
resolve a vertical pixel to a source bin index (an integer that can fall
outside `[0, numFrequencies)` in degenerate configurations, hence `ℤ`). -/
def getFrequencyIndex (y height numFrequencies : ℕ) (scale : FrequencyScale)
    (sampleRate : ℝ) (minFrequency maxFrequency : Option ℝ) : ℤ :=
  let normalizedY : ℝ := ((height : ℝ) - 1 - (y : ℝ)) / ((height : ℝ) - 1)
  let fr : ℝ :=
    if minFrequency.isSome ∨ maxFrequency.isSome then
      let minFreq := jsOrDefault minFrequency 0
      let maxFreq := jsOrDefault maxFrequency (sampleRate / 2)
      let freq := minFreq + normalizedY * (maxFreq - minFreq)
      freq / (sampleRate / 2)
    else
      match scale with
      | .linear => normalizedY
      | .log => (10 : ℝ) ^ (normalizedY * Real.logb 10 0.5)
      | .mel =>
          let melMin := hzToMel 0
          let melMax := hzToMel (sampleRate / 2)
          melToHz (melMin + normalizedY * (melMax - melMin)) / (sampleRate / 2)
      | .bark =>
          let barkMin := hzToBark 0
          let barkMax := hzToBark (sampleRate / 2)
          barkToHz (barkMin + normalizedY * (barkMax - barkMin)) / (sampleRate / 2)
      | .erb =>
          let erbMin := hzToErb 0
          let erbMax := hzToErb (sampleRate / 2)
          erbToHz (erbMin + normalizedY * (erbMax - erbMin)) / (sampleRate / 2)
  let clamped := max 0 (min 1 fr)
  ⌊clamped * ((numFrequencies : ℝ) - 1)⌋

/-- `applyMapping` (`src/spectrogram-generator.ts`, lines 1191-1214). -/
def applyMapping (normalized : ℝ) (mappingType : MappingType) : ℝ :=
  let clamped := max 0 (min 1 normalized)
  match mappingType with
  | .linear => clamped
  | .log => Real.logb 10 (1 + clamped * 9) / Real.logb 10 10
  | .power => clamped ^ (2.1 : ℝ)
  | .sqrt => clamped ^ (0.5 : ℝ)
  | .sigmoid => 1 / (1 + Real.exp (-(clamped - 0.5) * 4))

/-- `heatMap` (`src/spectrogram-generator.ts`, lines 1252-1269). -/
def heatMap (t : ℝ) : RGB :=
  let t := max 0 (min 1 t)
  if t < 0.33 then
    { r := ⌊t / 0.33 * 255⌋, g := 0, b := 0 }
  else if t < 0.67 then
    { r := 255, g := ⌊(t - 0.33) / 0.34 * 255⌋, b := 0 }
  else
    { r := 255, g := 255, b := ⌊(t - 0.67) / 0.33 * 255⌋ }

/-- `infernoMap` (`src/spectrogram-generator.ts`, lines 1280-1305). -/
def infernoMap (t : ℝ) : RGB :=
  let t := max 0 (min 1 t)
  if t < 0.2 then
    { r := ⌊t / 0.2 * 50⌋, g := 0, b := ⌊t / 0.2 * 100⌋ }
  else if t < 0.4 then
    { r := ⌊50 + (t - 0.2) / 0.2 * 100⌋, g := 0, b := ⌊100 + (t - 0.2) / 0.2 * 100⌋ }
  else if t < 0.6 then
    { r := ⌊150 + (t - 0.4) / 0.2 * 105⌋, g := 0, b := ⌊200 - (t - 0.4) / 0.2 * 200⌋ }
  else if t < 0.8 then
    { r := 255, g := ⌊(t - 0.6) / 0.2 * 128⌋, b := 0 }
  else
    { r := 255, g := ⌊128 + (t - 0.8) / 0.2 * 127⌋, b := ⌊(t - 0.8) / 0.2 * 255⌋ }

/-- `getColor` (`src/spectrogram-generator.ts`, lines 1219-1239). -/
def getColor (normalized : ℝ) (colorPreset : ColorPreset) : RGB :=
  match colorPreset with
  | .gray =>
      let intensity := ⌊normalized * 255⌋
      { r := 255 - intensity, g := 255 - intensity, b := 255 - intensity }
  | .invgray =>
      let intensity := ⌊normalized * 255⌋
      { r := intensity, g := intensity, b := intensity }
  | .heat => heatMap normalized
  | .inferno => infernoMap normalized

/-- The dB value read for output pixel `(x, y)` inside the pixel loop of
`createSpectrogramImage` (lines 813-820): select the resampled column via
`Math.min(Math.floor(x·numColumns/width), numColumns-1)`, resolve the bin via
`getFrequencyIndex`, and read `frame[freqIndex] || minDb`. -/
def rasterPixelDb (resampledData : List (List ℝ)) (width height : ℕ)
    (scale : FrequencyScale) (sampleRate : ℝ) (minFrequency maxFrequency : Option ℝ)
    (minDb : ℝ) (x y : ℕ) : ℝ :=
  let frameIndex :=
    min ⌊(x : ℝ) * (resampledData.length : ℝ) / (width : ℝ)⌋₊ (resampledData.length - 1)
  let frame := resampledData.getD frameIndex []
  let freqIndex := getFrequencyIndex y height frame.length scale sampleRate
    minFrequency maxFrequency
  jsOrDefault (jsIndex frame freqIndex) minDb

/-- The color written for output pixel `(x, y)` by `createSpectrogramImage`
(lines 813-835): normalize the dB read into `[0, 1]`, apply the intensity
mapping, then the color map. -/
def rasterPixelColor (resampledData : List (List ℝ)) (width height : ℕ)
    (colorPreset : ColorPreset) (scale : FrequencyScale) (mappingType : MappingType)
    (sampleRate : ℝ) (minFrequency maxFrequency : Option ℝ)
    (minDb maxDb : ℝ) (x y : ℕ) : RGB :=
  let db := rasterPixelDb resampledData width height scale sampleRate
    minFrequency maxFrequency minDb x y
  let dbRange := maxDb - minDb
  let normalized := if minDb < db then (db - minDb) / dbRange else 0
  let clamped := max 0 (min 1 normalized)
  getColor (applyMapping clamped mappingType) colorPreset

/-- The discrete Fourier transform of a real frame, as stated by the spec:
entry `k` is `∑_j sample[j]·e^(-2πi·jk/N)`. -/
def dft (x : List ℝ) (k : ℕ) : ℂ :=
  ∑ j ∈ Finset.range x.length,
    ((x.getD j 0 : ℝ) : ℂ) *
      Complex.exp ((((-2 * π * (j : ℝ) * (k : ℝ)) / (x.length : ℝ)) : ℂ) * Complex.I)

/-- Abbreviation for `e^(iθ)` with a real angle. -/
def expI (θ : ℝ) : ℂ := Complex.exp ((θ : ℂ) * Complex.I)

/-- The value the state array holds after the butterfly pass of size `2^p`
(proof-side specification): position `j = b·2^p + t` holds the size-`2^p` DFT,
evaluated at `t`, of the stride-`n/2^p` subsequence of the original input that
starts at offset `reverseBits b (m - p)`. -/
def fftStage (x : ℕ → ℂ) (n m p j : ℕ) : ℂ :=
  ∑ u ∈ Finset.range (2 ^ p),
    x (u * (n / 2 ^ p) + reverseBits (j / 2 ^ p) (m - p)) *
      expI ((-2 * π * ((j % 2 ^ p : ℕ) : ℝ) * (u : ℝ)) / ((2 ^ p : ℕ) : ℝ))

/-- The pointwise effect of one full butterfly pass of width `size` on the
positions it touches (proof-side specification). -/
def fullPassPoint (v : ℕ → ℂ) (size j : ℕ) : ℂ :=
  if j % size < size / 2 then
    v j + twiddle size (j % size) * v (j + size / 2)
  else
    v (j - size / 2) - twiddle size (j % size - size / 2) * v j

/-! ### Bit-reversal lemmas -/

lemma reverseBitsAux_eq (b : ℕ) :
    ∀ x result, reverseBitsAux b x result = result * 2 ^ b + reverseBitsAux b x 0 := by
  induction b with
  | zero => intro x r; simp [reverseBitsAux]
  | succ b ih =>
      intro x r
      show reverseBitsAux b (x / 2) (2 * r + x % 2) =
        r * 2 ^ (b + 1) + reverseBitsAux b (x / 2) (2 * 0 + x % 2)
      rw [ih (x / 2) (2 * r + x % 2), ih (x / 2) (2 * 0 + x % 2)]
      ring

lemma reverseBits_succ (x b : ℕ) :
    reverseBits x (b + 1) = x % 2 * 2 ^ b + reverseBits (x / 2) b := by
  show reverseBitsAux b (x / 2) (2 * 0 + x % 2) = x % 2 * 2 ^ b + reverseBitsAux b (x / 2) 0
  rw [reverseBitsAux_eq b (x / 2) (2 * 0 + x % 2)]
  ring

lemma reverseBits_lt (b : ℕ) : ∀ x, reverseBits x b < 2 ^ b := by
  induction b with
  | zero => intro x; simp [reverseBits, reverseBitsAux]
  | succ b ih =>
      intro x
      rw [reverseBits_succ]
      have h1 : x % 2 ≤ 1 := by omega
      have h2 := ih (x / 2)
      have h3 : x % 2 * 2 ^ b ≤ 1 * 2 ^ b := Nat.mul_le_mul_right _ h1
      have h4 : 2 ^ (b + 1) = 2 * 2 ^ b := by ring
      omega

lemma reverseBits_two_mul (x b : ℕ) : reverseBits (2 * x) (b + 1) = reverseBits x b := by
  rw [reverseBits_succ]
  have h1 : 2 * x % 2 = 0 := by omega
  have h2 : 2 * x / 2 = x := by omega
  rw [h1, h2, zero_mul, zero_add]

lemma reverseBits_two_mul_add_one (x b : ℕ) :
    reverseBits (2 * x + 1) (b + 1) = 2 ^ b + reverseBits x b := by
  rw [reverseBits_succ]
  have h1 : (2 * x + 1) % 2 = 1 := by omega
  have h2 : (2 * x + 1) / 2 = x := by omega
  rw [h1, h2, one_mul]

/-! ### Exponential helpers -/

lemma expI_add (a b : ℝ) : expI (a + b) = expI a * expI b := by
  unfold expI
  rw [← Complex.exp_add]
  congr 1
  push_cast
  ring

lemma expI_neg_two_pi_nat (u : ℕ) : expI (-2 * π * u) = 1 := by
  unfold expI
  have h : ((-2 * π * (u : ℝ) : ℝ) : ℂ) * Complex.I =
      ((-(u : ℤ) : ℤ) : ℂ) * (2 * (π : ℂ) * Complex.I) := by
    push_cast
    ring
  rw [h, Complex.exp_int_mul_two_pi_mul_I]

lemma expI_neg_pi : expI (-π) = -1 := by
  unfold expI
  have h : ((-π : ℝ) : ℂ) * Complex.I = -((π : ℂ) * Complex.I) := by
    push_cast
    ring
  rw [h, Complex.exp_neg, Complex.exp_pi_mul_I]
  norm_num

lemma twiddle_eq_expI (s i : ℕ) : twiddle s i = expI ((-2 * π) / (s : ℝ) * i) := by
  unfold twiddle expI
  apply Complex.ext
  · rw [Complex.exp_ofReal_mul_I_re]
  · rw [Complex.exp_ofReal_mul_I_im]

/-! ### Generic fold and sum helpers -/

lemma foldl_pointwise_zero {α : Type} (l : List α) (f : (ℕ → ℂ) → α → (ℕ → ℂ))
    (hf : ∀ v a, (∀ j, v j = 0) → ∀ j, f v a j = 0) :
    ∀ v : ℕ → ℂ, (∀ j, v j = 0) → ∀ j, (l.foldl f v) j = 0 := by
  induction l with
  | nil => intro v hv j; exact hv j
  | cons a t ih => intro v hv j; exact ih (f v a) (hf v a hv) j

lemma sum_range_two_mul (s : ℕ) (f : ℕ → ℂ) :
    ∑ v ∈ Finset.range (2 * s), f v =
      ∑ u ∈ Finset.range s, f (2 * u) + ∑ u ∈ Finset.range s, f (2 * u + 1) := by
  induction s with
  | zero => simp
  | succ s ih =>
      have h2 : 2 * (s + 1) = 2 * s + 1 + 1 := by ring
      rw [h2, Finset.sum_range_succ, Finset.sum_range_succ, Finset.sum_range_succ,
        Finset.sum_range_succ, ih]
      ring

/-! ### Pointwise characterization of one butterfly pass -/

lemma blockPass_aux (half s start : ℕ) (v : ℕ → ℂ) :
    ∀ k, k ≤ half → ∀ j,
      ((List.range k).foldl (fun acc i => butterflyStep acc half s start i) v) j =
        if start ≤ j ∧ j < start + k then
          v j + twiddle s (j - start) * v (j + half)
        else if start + half ≤ j ∧ j < start + half + k then
          v (j - half) - twiddle s (j - half - start) * v j
        else v j := by
  intro k
  induction k with
  | zero =>
      intro _ j
      simp only [List.range_zero, List.foldl_nil]
      split_ifs with h1 h2
      · omega
      · omega
      · rfl
  | succ k ih =>
      intro hk j
      have hk' : k ≤ half := by omega
      rw [List.range_succ, List.foldl_append]
      simp only [List.foldl_cons, List.foldl_nil]
      rw [butterflyStep]
      have hE : ((List.range k).foldl (fun acc i => butterflyStep acc half s start i) v)
          (start + k) = v (start + k) := by
        rw [ih hk' (start + k)]
        split_ifs with h1 h2
        · omega
        · omega
        · rfl
      have hO : ((List.range k).foldl (fun acc i => butterflyStep acc half s start i) v)
          (start + k + half) = v (start + k + half) := by
        rw [ih hk' (start + k + half)]
        split_ifs with h1 h2
        · omega
        · omega
        · rfl
      simp only [hE, hO]
      by_cases hj1 : j = start + k + half
      · subst hj1
        rw [if_pos rfl]
        have hhalf : 0 < half := by omega
        have hc1 : ¬(start ≤ start + k + half ∧ start + k + half < start + (k + 1)) := by omega
        have hc2 : start + half ≤ start + k + half ∧ start + k + half < start + half + (k + 1) := by
          omega
        rw [if_neg hc1, if_pos hc2]
        have e2 : start + k + half - half - start = k := by omega
        rw [e2]
        have e1 : start + k + half - half = start + k := by omega
        rw [e1]
      · rw [if_neg hj1]
        by_cases hj2 : j = start + k
        · subst hj2
          rw [if_pos rfl]
          have hc1 : start ≤ start + k ∧ start + k < start + (k + 1) := by omega
          rw [if_pos hc1]
          have e1 : start + k - start = k := by omega
          rw [e1]
        · rw [if_neg hj2, ih hk' j]
          by_cases hc1 : start ≤ j ∧ j < start + k
          · rw [if_pos hc1, if_pos (by omega : start ≤ j ∧ j < start + (k + 1))]
          · rw [if_neg hc1]
            by_cases hc2 : start + half ≤ j ∧ j < start + half + k
            · rw [if_pos hc2]
              rw [if_neg (by omega : ¬(start ≤ j ∧ j < start + (k + 1)))]
              rw [if_pos (by omega : start + half ≤ j ∧ j < start + half + (k + 1))]
            · rw [if_neg hc2]
              rw [if_neg (by omega : ¬(start ≤ j ∧ j < start + (k + 1)))]
              rw [if_neg (by omega : ¬(start + half ≤ j ∧ j < start + half + (k + 1)))]

lemma blockPass_eq (half s start : ℕ) (v : ℕ → ℂ) (j : ℕ) :
    blockPass v half s start j =
      if start ≤ j ∧ j < start + half then
        v j + twiddle s (j - start) * v (j + half)
      else if start + half ≤ j ∧ j < start + half + half then
        v (j - half) - twiddle s (j - half - start) * v j
      else v j :=
  blockPass_aux half s start v half le_rfl j

lemma fullPass_aux (s : ℕ) (hs : 0 < s) (hs2 : s % 2 = 0) (v : ℕ → ℂ) :
    ∀ K j,
      ((List.range K).foldl (fun acc b => blockPass acc (s / 2) s (b * s)) v) j =
        if j < K * s then fullPassPoint v s j else v j := by
  intro K
  induction K with
  | zero =>
      intro j
      simp
  | succ K ih =>
      intro j
      rw [List.range_succ, List.foldl_append]
      simp only [List.foldl_cons, List.foldl_nil]
      rw [blockPass_eq]
      have hhalf : s / 2 + s / 2 = s := by omega
      by_cases hc1 : K * s ≤ j ∧ j < K * s + s / 2
      · rw [if_pos hc1]
        have hjK : j / s = K := by
          apply Nat.div_eq_of_lt_le
          · omega
          · have : (K + 1) * s = K * s + s := by ring
            omega
        have hmul : s * K = K * s := Nat.mul_comm s K
        have hjmod : j % s = j - K * s := by
          have h := Nat.div_add_mod j s
          rw [hjK] at h
          omega
        have h1 : ((List.range K).foldl (fun acc b => blockPass acc (s / 2) s (b * s)) v) j
            = v j := by
          rw [ih j, if_neg (by omega : ¬j < K * s)]
        have h2 : ((List.range K).foldl (fun acc b => blockPass acc (s / 2) s (b * s)) v)
            (j + s / 2) = v (j + s / 2) := by
          rw [ih (j + s / 2), if_neg (by omega : ¬j + s / 2 < K * s)]
        rw [h1, h2]
        have hlt : j < (K + 1) * s := by
          have : (K + 1) * s = K * s + s := by ring
          omega
        rw [if_pos hlt]
        unfold fullPassPoint
        rw [if_pos (by omega : j % s < s / 2)]
        rw [hjmod]
      · rw [if_neg hc1]
        by_cases hc2 : K * s + s / 2 ≤ j ∧ j < K * s + s / 2 + s / 2
        · rw [if_pos hc2]
          have hjK : j / s = K := by
            apply Nat.div_eq_of_lt_le
            · omega
            · have : (K + 1) * s = K * s + s := by ring
              omega
          have hmul : s * K = K * s := Nat.mul_comm s K
          have hjmod : j % s = j - K * s := by
            have h := Nat.div_add_mod j s
            rw [hjK] at h
            omega
          have h1 : ((List.range K).foldl (fun acc b => blockPass acc (s / 2) s (b * s)) v)
              (j - s / 2) = v (j - s / 2) := by
            rw [ih (j - s / 2), if_neg (by omega : ¬j - s / 2 < K * s)]
          have h2 : ((List.range K).foldl (fun acc b => blockPass acc (s / 2) s (b * s)) v) j
              = v j := by
            rw [ih j, if_neg (by omega : ¬j < K * s)]
          rw [h1, h2]
          have hlt : j < (K + 1) * s := by
            have : (K + 1) * s = K * s + s := by ring
            omega
          rw [if_pos hlt]
          unfold fullPassPoint
          rw [if_neg (by omega : ¬j % s < s / 2)]
          have e1 : j % s - s / 2 = j - s / 2 - K * s := by omega
          rw [e1]
        · rw [if_neg hc2, ih j]
          by_cases hc3 : j < K * s
          · rw [if_pos hc3, if_pos (by
              have : (K + 1) * s = K * s + s := by ring
              omega : j < (K + 1) * s)]
          · rw [if_neg hc3, if_neg (by
              have : (K + 1) * s = K * s + s := by ring
              omega : ¬j < (K + 1) * s)]

lemma fullPass_eq (s n : ℕ) (h2 : 2 ≤ s) (hs2 : s % 2 = 0) (hdvd : s ∣ n)
    (v : ℕ → ℂ) (j : ℕ) (hj : j < n) :
    fullPass v n s j = fullPassPoint v s j := by
  obtain ⟨q, rfl⟩ := hdvd
  have hs : 0 < s := by omega
  have hB : (s * q + s - 1) / s = q := by
    have he : s * q + s - 1 = (s - 1) + q * s := by
      have : s * q = q * s := by ring
      omega
    rw [he, Nat.add_mul_div_right _ _ hs, Nat.div_eq_of_lt (by omega)]
    omega
  unfold fullPass
  rw [hB, fullPass_aux s hs hs2 v q j]
  rw [if_pos (by rw [mul_comm] at hj; exact hj)]

/-! ### The butterfly recombination step -/

lemma fftStage_butterfly_lower (x : ℕ → ℂ) (n m p b' i' : ℕ)
    (hn : n = 2 ^ m) (hp : p < m) (hi' : i' < 2 ^ p) :
    fftStage x n m p (2 ^ (p + 1) * b' + i') +
        twiddle (2 ^ (p + 1)) i' * fftStage x n m p (2 ^ (p + 1) * b' + i' + 2 ^ p) =
      fftStage x n m (p + 1) (2 ^ (p + 1) * b' + i') := by
  have hpos : (0 : ℕ) < 2 ^ p := pow_pos (by norm_num) p
  have hpos1 : (0 : ℕ) < 2 ^ (p + 1) := pow_pos (by norm_num) (p + 1)
  have hrev : m - p = (m - p - 1) + 1 := by omega
  have hm1 : m - (p + 1) = m - p - 1 := by omega
  have hq : n / 2 ^ (p + 1) = 2 ^ (m - p - 1) := by
    rw [hn, Nat.pow_div (by omega) (by norm_num), hm1]
  have hnh : n / 2 ^ p = 2 * 2 ^ (m - p - 1) := by
    have hk : m - p = (m - p - 1) + 1 := by omega
    rw [hn, Nat.pow_div (le_of_lt hp) (by norm_num)]
    generalize hg : m - p - 1 = k at hk ⊢
    rw [hk, pow_succ]
    ring
  have e1 : 2 ^ (p + 1) * b' + i' = 2 ^ p * (2 * b') + i' := by
    rw [pow_succ]; ring
  have d1 : (2 ^ (p + 1) * b' + i') / 2 ^ p = 2 * b' := by
    rw [e1, Nat.mul_add_div hpos, Nat.div_eq_of_lt hi', add_zero]
  have m1 : (2 ^ (p + 1) * b' + i') % 2 ^ p = i' := by
    rw [e1, Nat.mul_add_mod, Nat.mod_eq_of_lt hi']
  have e2 : 2 ^ (p + 1) * b' + i' + 2 ^ p = 2 ^ p * (2 * b' + 1) + i' := by
    rw [pow_succ]; ring
  have d2 : (2 ^ (p + 1) * b' + i' + 2 ^ p) / 2 ^ p = 2 * b' + 1 := by
    rw [e2, Nat.mul_add_div hpos, Nat.div_eq_of_lt hi', add_zero]
  have m2 : (2 ^ (p + 1) * b' + i' + 2 ^ p) % 2 ^ p = i' := by
    rw [e2, Nat.mul_add_mod, Nat.mod_eq_of_lt hi']
  have hi'1 : i' < 2 ^ (p + 1) := lt_of_lt_of_le hi' (Nat.pow_le_pow_right (by norm_num) (by omega))
  have d3 : (2 ^ (p + 1) * b' + i') / 2 ^ (p + 1) = b' := by
    rw [Nat.mul_add_div hpos1, Nat.div_eq_of_lt hi'1, add_zero]
  have m3 : (2 ^ (p + 1) * b' + i') % 2 ^ (p + 1) = i' := by
    rw [Nat.mul_add_mod, Nat.mod_eq_of_lt hi'1]
  have hrev1 : reverseBits (2 * b') (m - p) = reverseBits b' (m - p - 1) := by
    rw [hrev]; exact reverseBits_two_mul b' (m - p - 1)
  have hrev2 : reverseBits (2 * b' + 1) (m - p) = 2 ^ (m - p - 1) + reverseBits b' (m - p - 1) := by
    rw [hrev]; exact reverseBits_two_mul_add_one b' (m - p - 1)
  have hs2 : (2 : ℕ) ^ (p + 1) = 2 * 2 ^ p := by rw [pow_succ]; ring
  have h2pr : ((2 : ℝ) ^ p) ≠ 0 := by positivity
  simp only [fftStage, d1, m1, d2, m2, d3, m3]
  simp only [hq, hnh, hrev1, hrev2, hm1]
  simp only [hs2]
  rw [sum_range_two_mul]
  congr 1
  · refine Finset.sum_congr rfl fun u hu => ?_
    congr 1
    · congr 1
      ring
    · congr 1
      push_cast
      field_simp
      ring
  · rw [twiddle_eq_expI, Finset.mul_sum]
    refine Finset.sum_congr rfl fun u hu => ?_
    have hidx : (2 * u + 1) * 2 ^ (m - p - 1) + reverseBits b' (m - p - 1) =
        u * (2 * 2 ^ (m - p - 1)) + (2 ^ (m - p - 1) + reverseBits b' (m - p - 1)) := by
      ring
    rw [hidx]
    have harg : (-2 * π * ((i' : ℕ) : ℝ) * (((2 * u + 1 : ℕ) : ℕ) : ℝ)) / (((2 * 2 ^ p : ℕ) : ℕ) : ℝ) =
        (-2 * π) / (((2 * 2 ^ p : ℕ) : ℕ) : ℝ) * ((i' : ℕ) : ℝ) +
          (-2 * π * ((i' : ℕ) : ℝ) * ((u : ℕ) : ℝ)) / (((2 ^ p : ℕ) : ℕ) : ℝ) := by
      push_cast
      field_simp
      ring
    rw [harg, expI_add]
    ring

lemma fftStage_butterfly_upper (x : ℕ → ℂ) (n m p b' i' : ℕ)
    (hn : n = 2 ^ m) (hp : p < m) (hi' : i' < 2 ^ p) :
    fftStage x n m p (2 ^ (p + 1) * b' + i') -
        twiddle (2 ^ (p + 1)) i' * fftStage x n m p (2 ^ (p + 1) * b' + 2 ^ p + i') =
      fftStage x n m (p + 1) (2 ^ (p + 1) * b' + 2 ^ p + i') := by
  have hpos : (0 : ℕ) < 2 ^ p := pow_pos (by norm_num) p
  have hpos1 : (0 : ℕ) < 2 ^ (p + 1) := pow_pos (by norm_num) (p + 1)
  have hrev : m - p = (m - p - 1) + 1 := by omega
  have hm1 : m - (p + 1) = m - p - 1 := by omega
  have hq : n / 2 ^ (p + 1) = 2 ^ (m - p - 1) := by
    rw [hn, Nat.pow_div (by omega) (by norm_num), hm1]
  have hnh : n / 2 ^ p = 2 * 2 ^ (m - p - 1) := by
    have hk : m - p = (m - p - 1) + 1 := by omega
    rw [hn, Nat.pow_div (le_of_lt hp) (by norm_num)]
    generalize hg : m - p - 1 = k at hk ⊢
    rw [hk, pow_succ]
    ring
  have e1 : 2 ^ (p + 1) * b' + i' = 2 ^ p * (2 * b') + i' := by
    rw [pow_succ]; ring
  have d1 : (2 ^ (p + 1) * b' + i') / 2 ^ p = 2 * b' := by
    rw [e1, Nat.mul_add_div hpos, Nat.div_eq_of_lt hi', add_zero]
  have m1 : (2 ^ (p + 1) * b' + i') % 2 ^ p = i' := by
    rw [e1, Nat.mul_add_mod, Nat.mod_eq_of_lt hi']
  have e2 : 2 ^ (p + 1) * b' + 2 ^ p + i' = 2 ^ p * (2 * b' + 1) + i' := by
    rw [pow_succ]; ring
  have d2 : (2 ^ (p + 1) * b' + 2 ^ p + i') / 2 ^ p = 2 * b' + 1 := by
    rw [e2, Nat.mul_add_div hpos, Nat.div_eq_of_lt hi', add_zero]
  have m2 : (2 ^ (p + 1) * b' + 2 ^ p + i') % 2 ^ p = i' := by
    rw [e2, Nat.mul_add_mod, Nat.mod_eq_of_lt hi']
  have hmix : 2 ^ p + i' < 2 ^ (p + 1) := by
    have : (2 : ℕ) ^ (p + 1) = 2 * 2 ^ p := by rw [pow_succ]; ring
    omega
  have e3 : 2 ^ (p + 1) * b' + 2 ^ p + i' = 2 ^ (p + 1) * b' + (2 ^ p + i') := by
    ring
  have d3 : (2 ^ (p + 1) * b' + 2 ^ p + i') / 2 ^ (p + 1) = b' := by
    rw [e3, Nat.mul_add_div hpos1, Nat.div_eq_of_lt hmix, add_zero]
  have m3 : (2 ^ (p + 1) * b' + 2 ^ p + i') % 2 ^ (p + 1) = 2 ^ p + i' := by
    rw [e3, Nat.mul_add_mod, Nat.mod_eq_of_lt hmix]
  have hrev1 : reverseBits (2 * b') (m - p) = reverseBits b' (m - p - 1) := by
    rw [hrev]; exact reverseBits_two_mul b' (m - p - 1)
  have hrev2 : reverseBits (2 * b' + 1) (m - p) = 2 ^ (m - p - 1) + reverseBits b' (m - p - 1) := by
    rw [hrev]; exact reverseBits_two_mul_add_one b' (m - p - 1)
  have hs2 : (2 : ℕ) ^ (p + 1) = 2 * 2 ^ p := by rw [pow_succ]; ring
  have h2pr : ((2 : ℝ) ^ p) ≠ 0 := by positivity
  simp only [fftStage, d1, m1, d2, m2, d3, m3]
  simp only [hq, hnh, hrev1, hrev2, hm1]
  simp only [hs2]
  rw [sum_range_two_mul, sub_eq_add_neg]
  congr 1
  · refine Finset.sum_congr rfl fun u hu => ?_
    have harg : (-2 * π * (((2 ^ p + i' : ℕ) : ℕ) : ℝ) * (((2 * u : ℕ) : ℕ) : ℝ)) /
          (((2 * 2 ^ p : ℕ) : ℕ) : ℝ) =
        (-2 * π * ((i' : ℕ) : ℝ) * ((u : ℕ) : ℝ)) / (((2 ^ p : ℕ) : ℕ) : ℝ) +
          -2 * π * ((u : ℕ) : ℝ) := by
      push_cast
      field_simp
      ring
    rw [harg, expI_add, expI_neg_two_pi_nat, mul_one]
    congr 2
    ring
  · rw [twiddle_eq_expI, Finset.mul_sum, ← Finset.sum_neg_distrib]
    refine Finset.sum_congr rfl fun u hu => ?_
    have hidx : (2 * u + 1) * 2 ^ (m - p - 1) + reverseBits b' (m - p - 1) =
        u * (2 * 2 ^ (m - p - 1)) + (2 ^ (m - p - 1) + reverseBits b' (m - p - 1)) := by
      ring
    rw [hidx]
    have harg : (-2 * π * (((2 ^ p + i' : ℕ) : ℕ) : ℝ) * (((2 * u + 1 : ℕ) : ℕ) : ℝ)) /
          (((2 * 2 ^ p : ℕ) : ℕ) : ℝ) =
        ((-2 * π) / (((2 * 2 ^ p : ℕ) : ℕ) : ℝ) * ((i' : ℕ) : ℝ) +
            (-2 * π * ((i' : ℕ) : ℝ) * ((u : ℕ) : ℝ)) / (((2 ^ p : ℕ) : ℕ) : ℝ)) +
          (-2 * π * ((u : ℕ) : ℝ) + -π) := by
      push_cast
      field_simp
      ring
    rw [harg, expI_add, expI_add, expI_add, expI_neg_two_pi_nat, expI_neg_pi]
    ring

lemma fftStage_step (x : ℕ → ℂ) (n m p j : ℕ) (hn : n = 2 ^ m) (hp : p < m) :
    fullPassPoint (fun i => fftStage x n m p i) (2 ^ (p + 1)) j = fftStage x n m (p + 1) j := by
  have hpos1 : (0 : ℕ) < 2 ^ (p + 1) := pow_pos (by norm_num) (p + 1)
  have hs2 : (2 : ℕ) ^ (p + 1) = 2 * 2 ^ p := by rw [pow_succ]; ring
  have hhalf : (2 : ℕ) ^ (p + 1) / 2 = 2 ^ p := by omega
  set b' := j / 2 ^ (p + 1) with hb'
  set i'' := j % 2 ^ (p + 1) with hi''
  have hsplit : 2 ^ (p + 1) * b' + i'' = j := Nat.div_add_mod j (2 ^ (p + 1))
  have hi''lt : i'' < 2 ^ (p + 1) := Nat.mod_lt j hpos1
  unfold fullPassPoint
  simp only [hhalf]
  rw [← hi'']
  by_cases hcase : i'' < 2 ^ p
  · rw [if_pos hcase]
    rw [← hsplit]
    exact fftStage_butterfly_lower x n m p b' i'' hn hp hcase
  · rw [if_neg hcase]
    set A := 2 ^ (p + 1) * b' with hA
    have ht' : i'' - 2 ^ p < 2 ^ p := by omega
    have hj1 : j - 2 ^ p = A + (i'' - 2 ^ p) := by omega
    have hj2 : j = A + 2 ^ p + (i'' - 2 ^ p) := by omega
    rw [hj1, hj2]
    exact fftStage_butterfly_upper x n m p b' (i'' - 2 ^ p) hn hp ht'

lemma fftLoop_eq_stage (x : ℕ → ℂ) (n m : ℕ) (hn : n = 2 ^ m) :
    ∀ k, k ≤ m → ∀ j, j < n →
      ((List.range k).foldl (fun acc p => fullPass acc n (2 ^ (p + 1)))
          (fun i => x (reverseBits i m))) j = fftStage x n m k j := by
  intro k
  induction k with
  | zero =>
      intro _ j hj
      simp only [List.range_zero, List.foldl_nil]
      simp [fftStage, Finset.sum_range_one, expI]
  | succ k ih =>
      intro hk j hj
      have hk' : k ≤ m := by omega
      have hkm : k < m := by omega
      rw [List.range_succ, List.foldl_append]
      simp only [List.foldl_cons, List.foldl_nil]
      set s := (2 : ℕ) ^ (k + 1) with hs
      have h2s : 2 ≤ s := by
        have : (2 : ℕ) ^ 1 ≤ 2 ^ (k + 1) := Nat.pow_le_pow_right (by norm_num) (by omega)
        simpa using this
      have hsmod : s % 2 = 0 := by
        have : s = 2 * 2 ^ k := by rw [hs, pow_succ]; ring
        omega
      have hdvd : s ∣ n := by rw [hn, hs]; exact pow_dvd_pow 2 (by omega)
      rw [fullPass_eq s n h2s hsmod hdvd _ j hj]
      have hstep := fftStage_step x n m k j hn hkm
      rw [← hs] at hstep
      rw [← hstep]
      have hsm := Nat.div_add_mod j s
      have hjd : j / s < n / s := by
        by_contra hcon
        push_neg at hcon
        have h1 : n / s * s ≤ j / s * s := Nat.mul_le_mul_right s hcon
        rw [Nat.div_mul_cancel hdvd] at h1
        have h2 : j / s * s ≤ j := Nat.div_mul_le_self j s
        omega
      have hblock : s * (j / s) + s ≤ n := by
        have h1 : j / s + 1 ≤ n / s := hjd
        have h2 : s * (j / s + 1) ≤ s * (n / s) := Nat.mul_le_mul_left s h1
        rw [Nat.mul_div_cancel' hdvd] at h2
        have h3 : s * (j / s + 1) = s * (j / s) + s := by ring
        omega
      have hs2' : s / 2 + s / 2 = s := by omega
      unfold fullPassPoint
      split_ifs with hc
      · have hjhalf : j + s / 2 < n := by omega
        rw [ih hk' j hj, ih hk' (j + s / 2) hjhalf]
      · have hjm : j - s / 2 < n := by omega
        rw [ih hk' (j - s / 2) hjm, ih hk' j hj]

lemma log2_two_pow (m : ℕ) : Nat.log2 (2 ^ m) = m := by
  rw [Nat.log2_eq_log_two]
  exact Nat.log_pow (by norm_num) m

lemma fftStage_top (x : ℕ → ℂ) (m k : ℕ) (hk : k < 2 ^ m) :
    fftStage x (2 ^ m) m m k =
      ∑ u ∈ Finset.range (2 ^ m), x u * expI ((-2 * π * (k : ℝ) * (u : ℝ)) / ((2 ^ m : ℕ) : ℝ)) := by
  unfold fftStage
  have h1 : (2 : ℕ) ^ m / 2 ^ m = 1 := Nat.div_self (pow_pos (by norm_num) m)
  have h2 : k / 2 ^ m = 0 := Nat.div_eq_of_lt hk
  have h3 : k % 2 ^ m = k := Nat.mod_eq_of_lt hk
  have h4 : m - m = 0 := by omega
  simp only [h1, h2, h3, h4]
  refine Finset.sum_congr rfl fun u hu => ?_
  congr 1
  show x (u * 1 + reverseBits 0 0) = x u
  have : reverseBits 0 0 = 0 := rfl
  rw [this, mul_one, add_zero]

/-- C2: for a real frame whose length is a power of two, `performFFT` returns a
complex spectrum of the same length whose entry `k` is the discrete Fourier
transform value `∑_j sample[j]·e^(-2πi·jk/N)`, the bit-reversal permutation
followed by the butterfly passes being embedded in `performFFT` exactly as in
the source. -/
theorem performFFT_computes_dft (samples : List ℝ) (m : ℕ) (h : samples.length = 2 ^ m) :
    (performFFT samples).complexValues.length = samples.length ∧
    ∀ k, k < samples.length → (performFFT samples).complexValues.getD k 0 = dft samples k := by
  constructor
  · simp [performFFT]
  · intro k hk
    unfold performFFT
    simp only
    have hk' : k < (List.range samples.length).length := by simpa using hk
    rw [List.getD_eq_getElem?_getD, List.getElem?_map, List.getElem?_range (by simpa using hk)]
    simp only [Option.map_some', Option.getD_some]
    unfold fftLoop
    rw [h, log2_two_pow, Nat.clog_pow 2 m (by norm_num)]
    have hmain := fftLoop_eq_stage (fun i => ((samples.getD i 0 : ℝ) : ℂ)) (2 ^ m) m rfl
      m le_rfl k (by rw [← h]; exact hk)
    rw [hmain, fftStage_top _ m k (by rw [← h]; exact hk)]
    unfold dft expI
    rw [h]
    refine Finset.sum_congr rfl fun u hu => ?_
    congr 2
    push_cast
    ring

theorem performFFT_computes_dft_witness :
    ([(1 : ℝ)].length = 2 ^ 0) ∧
      (performFFT [(1 : ℝ)]).complexValues.getD 0 0 = dft [(1 : ℝ)] 0 :=
  ⟨rfl, (performFFT_computes_dft [(1 : ℝ)] 0 rfl).2 0 (by norm_num)⟩

/-! ### Zero frames propagate to the display floor -/

lemma getD_eq_of_all_eq {α : Type} (l : List α) (z : α) (hz : ∀ s ∈ l, s = z) (k : ℕ) :
    l.getD k z = z := by
  rcases Nat.lt_or_ge k l.length with h | h
  · rw [List.getD_eq_getElem l z h]
    exact hz _ (List.getElem_mem h)
  · exact List.getD_eq_default l z h

lemma getElem?_getD_eq_of_all_eq {α : Type} (l : List α) (z : α) (hz : ∀ s ∈ l, s = z)
    (k : ℕ) : l[k]?.getD z = z := by
  rw [← List.getD_eq_getElem?_getD]
  exact getD_eq_of_all_eq l z hz k

lemma applyWindow_length (samples : List ℝ) (w : WindowType) :
    (applyWindow samples w).length = samples.length := by
  simp [applyWindow]

lemma applyWindow_zero (samples : List ℝ) (w : WindowType) (hz : ∀ s ∈ samples, s = 0) :
    ∀ v ∈ applyWindow samples w, v = 0 := by
  intro v hv
  unfold applyWindow at hv
  simp only [List.mem_map, List.mem_range] at hv
  obtain ⟨i, _, rfl⟩ := hv
  simp [getElem?_getD_eq_of_all_eq samples 0 hz]

lemma butterflyStep_zero (v : ℕ → ℂ) (half s start i : ℕ) (hv : ∀ j, v j = 0) (j : ℕ) :
    butterflyStep v half s start i j = 0 := by
  simp [butterflyStep, hv]

lemma fftLoop_zero (n : ℕ) (v : ℕ → ℂ) (hv : ∀ j, v j = 0) (j : ℕ) : fftLoop v n j = 0 := by
  unfold fftLoop
  refine foldl_pointwise_zero _ _ (fun w p hw => ?_) v hv j
  unfold fullPass
  refine foldl_pointwise_zero _ _ (fun w' b hw' => ?_) w hw
  unfold blockPass
  exact foldl_pointwise_zero _ _ (fun w'' i hw'' => butterflyStep_zero w'' _ _ _ i hw'') w' hw'

lemma performFFT_zero (samples : List ℝ) (hz : ∀ s ∈ samples, s = 0) :
    ∀ z ∈ (performFFT samples).complexValues, z = 0 := by
  intro z hzin
  unfold performFFT at hzin
  simp only [List.mem_map, List.mem_range] at hzin
  obtain ⟨j, _, rfl⟩ := hzin
  refine fftLoop_zero _ _ (fun i => ?_) j
  simp [getElem?_getD_eq_of_all_eq samples 0 hz]

lemma rpow_neg_twelve : (10 : ℝ) ^ (-12 : ℝ) = DB_CONSTANTS.MIN_POWER_VALUE := by
  rw [show (-12 : ℝ) = ((-12 : ℤ) : ℝ) by norm_num, Real.rpow_intCast]
  unfold DB_CONSTANTS.MIN_POWER_VALUE
  norm_num

lemma framePipeline_zero (samples : List ℝ) (N : ℕ) (hz : ∀ s ∈ samples, s = 0) :
    (convertToDBSpectrum
        (calculatePowerSpectrum (performFFT (applyWindow samples WindowType.hanning)) N)
        N).dbValues =
      List.replicate (N / 2) DB_CONSTANTS.MIN_DB_DISPLAY := by
  have hfz := performFFT_zero (applyWindow samples WindowType.hanning)
    (applyWindow_zero samples WindowType.hanning hz)
  have hpz : ∀ q ∈ (calculatePowerSpectrum
      (performFFT (applyWindow samples WindowType.hanning)) N).powerValues, q = 0 := by
    intro q hq
    unfold calculatePowerSpectrum at hq
    simp only [List.mem_map, List.mem_range] at hq
    obtain ⟨i, _, rfl⟩ := hq
    have h0 : (performFFT (applyWindow samples WindowType.hanning)).complexValues.getD i 0
        = 0 := getD_eq_of_all_eq _ 0 hfz i
    rw [h0]
    simp
  unfold convertToDBSpectrum
  simp only
  rw [List.eq_replicate_iff]
  constructor
  · simp [calculatePowerSpectrum]
  · intro b hb
    simp only [List.mem_map] at hb
    obtain ⟨power, hpmem, rfl⟩ := hb
    rw [hpz power hpmem]
    rw [if_neg (by norm_num [DB_CONSTANTS.MIN_POWER_VALUE])]

/-- C3: `convertToDBSpectrum` divides each power by `fftSize²`, yields
`10·log10(normalizedPower / referenceLevel)` when the normalized power exceeds
the `1e-12` power floor and the `-120` display floor otherwise; consequently
every dB value is at least `-120`, and the all-zero frame pipeline produces an
all-`-120` spectrum. -/
theorem convertToDBSpectrum_spec :
    (∀ (p : PowerSpectrum) (N i : ℕ), i < (convertToDBSpectrum p N).dbValues.length →
      (convertToDBSpectrum p N).dbValues.getD i 0 =
        (if DB_CONSTANTS.MIN_POWER_VALUE < p.powerValues.getD i 0 / ((N : ℝ) * (N : ℝ)) then
          10 * Real.logb 10
            ((p.powerValues.getD i 0 / ((N : ℝ) * (N : ℝ))) / DB_CONSTANTS.REFERENCE_LEVEL)
        else DB_CONSTANTS.MIN_DB_DISPLAY)) ∧
    (∀ (p : PowerSpectrum) (N : ℕ), ∀ v ∈ (convertToDBSpectrum p N).dbValues,
      DB_CONSTANTS.MIN_DB_DISPLAY ≤ v) ∧
    (∀ (samples : List ℝ) (m : ℕ), samples.length = 2 ^ m → (∀ s ∈ samples, s = 0) →
      (convertToDBSpectrum
          (calculatePowerSpectrum (performFFT (applyWindow samples WindowType.hanning))
            samples.length)
          samples.length).dbValues =
        List.replicate (samples.length / 2) DB_CONSTANTS.MIN_DB_DISPLAY) := by
  have hval : ∀ (p : PowerSpectrum) (N : ℕ) (power : ℝ),
      DB_CONSTANTS.MIN_DB_DISPLAY ≤
        (if DB_CONSTANTS.MIN_POWER_VALUE < power / ((N : ℝ) * (N : ℝ)) then
          10 * Real.logb 10 ((power / ((N : ℝ) * (N : ℝ))) / DB_CONSTANTS.REFERENCE_LEVEL)
        else DB_CONSTANTS.MIN_DB_DISPLAY) := by
    intro p N power
    split_ifs with hcond
    · set np := power / ((N : ℝ) * (N : ℝ)) with hnp
      have hpos : (0 : ℝ) < np := lt_trans (by norm_num [DB_CONSTANTS.MIN_POWER_VALUE]) hcond
      have hlogb : (-12 : ℝ) < Real.logb 10 np := by
        rw [Real.lt_logb_iff_rpow_lt (by norm_num) hpos, rpow_neg_twelve]
        exact hcond
      have : np / DB_CONSTANTS.REFERENCE_LEVEL = np := by
        unfold DB_CONSTANTS.REFERENCE_LEVEL
        norm_num
      rw [this]
      unfold DB_CONSTANTS.MIN_DB_DISPLAY
      nlinarith
    · exact le_refl _
  refine ⟨?_, ?_, ?_⟩
  · intro p N i hi
    unfold convertToDBSpectrum at hi ⊢
    simp only [List.length_map] at hi
    simp only
    rw [List.getD_eq_getElem?_getD, List.getElem?_map]
    rw [(List.getElem?_eq_getElem hi : p.powerValues[i]? = some p.powerValues[i])]
    simp only [Option.map_some', Option.getD_some]
    rw [List.getD_eq_getElem p.powerValues 0 hi]
  · intro p N v hv
    unfold convertToDBSpectrum at hv
    simp only [List.mem_map] at hv
    obtain ⟨power, _, rfl⟩ := hv
    exact hval p N power
  · intro samples m hlen hz
    exact framePipeline_zero samples samples.length hz

theorem convertToDBSpectrum_spec_witness :
    (0 < (convertToDBSpectrum ⟨[(4 : ℝ)], 1, 0⟩ 1).dbValues.length ∧
      (convertToDBSpectrum ⟨[(4 : ℝ)], 1, 0⟩ 1).dbValues.getD 0 0 =
        (if DB_CONSTANTS.MIN_POWER_VALUE <
            (PowerSpectrum.mk [(4 : ℝ)] 1 0).powerValues.getD 0 0 / ((1 : ℝ) * (1 : ℝ)) then
          10 * Real.logb 10
            (((PowerSpectrum.mk [(4 : ℝ)] 1 0).powerValues.getD 0 0 / ((1 : ℝ) * (1 : ℝ))) /
              DB_CONSTANTS.REFERENCE_LEVEL)
        else DB_CONSTANTS.MIN_DB_DISPLAY)) ∧
    (DB_CONSTANTS.MIN_DB_DISPLAY ∈ (convertToDBSpectrum ⟨[(0 : ℝ)], 1, 0⟩ 2).dbValues ∧
      DB_CONSTANTS.MIN_DB_DISPLAY ≤ DB_CONSTANTS.MIN_DB_DISPLAY) ∧
    ((convertToDBSpectrum
        (calculatePowerSpectrum (performFFT (applyWindow [(0 : ℝ), 0] WindowType.hanning)) 2)
        2).dbValues = List.replicate 1 DB_CONSTANTS.MIN_DB_DISPLAY) := by
  have hmem : DB_CONSTANTS.MIN_DB_DISPLAY ∈ (convertToDBSpectrum ⟨[(0 : ℝ)], 1, 0⟩ 2).dbValues := by
    norm_num [convertToDBSpectrum, DB_CONSTANTS.MIN_POWER_VALUE]
  refine ⟨⟨?_, ?_⟩, ⟨hmem, le_refl _⟩, ?_⟩
  · simp [convertToDBSpectrum]
  · have h := (convertToDBSpectrum_spec.1 ⟨[(4 : ℝ)], 1, 0⟩ 1 0 (by simp [convertToDBSpectrum]))
    simpa using h
  · have h := convertToDBSpectrum_spec.2.2 [(0 : ℝ), 0] 1 (by norm_num) (by
      intro s hs
      simp at hs
      tauto)
    simpa using h


/-! ### The global dB range scan -/

lemma EReal_coe_min (a b : ℝ) : ((min a b : ℝ) : EReal) = min (a : EReal) (b : EReal) := by
  rcases le_total a b with h | h
  · rw [min_eq_left h, min_eq_left (by exact_mod_cast h : (a : EReal) ≤ (b : EReal))]
  · rw [min_eq_right h, min_eq_right (by exact_mod_cast h : (b : EReal) ≤ (a : EReal))]

lemma EReal_coe_max (a b : ℝ) : ((max a b : ℝ) : EReal) = max (a : EReal) (b : EReal) := by
  rcases le_total a b with h | h
  · rw [max_eq_right h, max_eq_right (by exact_mod_cast h : (a : EReal) ≤ (b : EReal))]
  · rw [max_eq_left h, max_eq_left (by exact_mod_cast h : (b : EReal) ≤ (a : EReal))]

lemma binsFold_no_update (bins : List ℝ)
    (h : ∀ db ∈ bins, ¬ DB_CONSTANTS.MIN_DB_DISPLAY < db) (acc : EReal × EReal) :
    bins.foldl
      (fun acc db =>
        if DB_CONSTANTS.MIN_DB_DISPLAY < db then
          (min acc.1 (db : EReal), max acc.2 (db : EReal))
        else acc)
      acc = acc := by
  induction bins generalizing acc with
  | nil => rfl
  | cons b t ih =>
      simp only [List.foldl_cons]
      rw [if_neg (h b (List.mem_cons_self b t))]
      exact ih (fun db hdb => h db (List.mem_cons_of_mem b hdb)) acc

lemma framesFold_no_update (frames : List SpectrogramFrame)
    (h : ∀ f ∈ frames, ∀ db ∈ f.frequencyBins, ¬ DB_CONSTANTS.MIN_DB_DISPLAY < db)
    (acc : EReal × EReal) :
    frames.foldl
      (fun acc frame => frame.frequencyBins.foldl
        (fun acc db =>
          if DB_CONSTANTS.MIN_DB_DISPLAY < db then
            (min acc.1 (db : EReal), max acc.2 (db : EReal))
          else acc)
        acc)
      acc = acc := by
  induction frames generalizing acc with
  | nil => rfl
  | cons f t ih =>
      simp only [List.foldl_cons]
      rw [binsFold_no_update f.frequencyBins (h f (List.mem_cons_self f t)) acc]
      exact ih (fun g hg => h g (List.mem_cons_of_mem f hg)) acc

lemma binsFold_shape (bins : List ℝ) (acc : EReal × EReal)
    (hacc : (acc.1 = ⊤ ∨ ∃ r : ℝ, acc.1 = (r : EReal)) ∧
      (acc.2 = ⊥ ∨ ∃ r : ℝ, acc.2 = (r : EReal))) :
    ((bins.foldl
      (fun acc db =>
        if DB_CONSTANTS.MIN_DB_DISPLAY < db then
          (min acc.1 (db : EReal), max acc.2 (db : EReal))
        else acc)
      acc).1 = ⊤ ∨ ∃ r : ℝ, (bins.foldl
      (fun acc db =>
        if DB_CONSTANTS.MIN_DB_DISPLAY < db then
          (min acc.1 (db : EReal), max acc.2 (db : EReal))
        else acc)
      acc).1 = (r : EReal)) ∧
    ((bins.foldl
      (fun acc db =>
        if DB_CONSTANTS.MIN_DB_DISPLAY < db then
          (min acc.1 (db : EReal), max acc.2 (db : EReal))
        else acc)
      acc).2 = ⊥ ∨ ∃ r : ℝ, (bins.foldl
      (fun acc db =>
        if DB_CONSTANTS.MIN_DB_DISPLAY < db then
          (min acc.1 (db : EReal), max acc.2 (db : EReal))
        else acc)
      acc).2 = (r : EReal)) := by
  induction bins generalizing acc with
  | nil => exact hacc
  | cons b t ih =>
      simp only [List.foldl_cons]
      split_ifs with hb
      · refine ih _ ⟨?_, ?_⟩
        · rcases hacc.1 with h1 | ⟨r, h1⟩
          · right
            exact ⟨b, by rw [h1, min_eq_right le_top]⟩
          · right
            exact ⟨min r b, by rw [h1, EReal_coe_min]⟩
        · rcases hacc.2 with h2 | ⟨r, h2⟩
          · right
            exact ⟨b, by rw [h2, max_eq_right bot_le]⟩
          · right
            exact ⟨max r b, by rw [h2, EReal_coe_max]⟩
      · exact ih _ hacc

lemma framesFold_shape (frames : List SpectrogramFrame) (acc : EReal × EReal)
    (hacc : (acc.1 = ⊤ ∨ ∃ r : ℝ, acc.1 = (r : EReal)) ∧
      (acc.2 = ⊥ ∨ ∃ r : ℝ, acc.2 = (r : EReal))) :
    ((frames.foldl
      (fun acc frame => frame.frequencyBins.foldl
        (fun acc db =>
          if DB_CONSTANTS.MIN_DB_DISPLAY < db then
            (min acc.1 (db : EReal), max acc.2 (db : EReal))
          else acc)
        acc)
      acc).1 = ⊤ ∨ ∃ r : ℝ, (frames.foldl
      (fun acc frame => frame.frequencyBins.foldl
        (fun acc db =>
          if DB_CONSTANTS.MIN_DB_DISPLAY < db then
            (min acc.1 (db : EReal), max acc.2 (db : EReal))
          else acc)
        acc)
      acc).1 = (r : EReal)) ∧
    ((frames.foldl
      (fun acc frame => frame.frequencyBins.foldl
        (fun acc db =>
          if DB_CONSTANTS.MIN_DB_DISPLAY < db then
            (min acc.1 (db : EReal), max acc.2 (db : EReal))
          else acc)
        acc)
      acc).2 = ⊥ ∨ ∃ r : ℝ, (frames.foldl
      (fun acc frame => frame.frequencyBins.foldl
        (fun acc db =>
          if DB_CONSTANTS.MIN_DB_DISPLAY < db then
            (min acc.1 (db : EReal), max acc.2 (db : EReal))
          else acc)
        acc)
      acc).2 = (r : EReal)) := by
  induction frames generalizing acc with
  | nil => exact hacc
  | cons f t ih =>
      simp only [List.foldl_cons]
      exact ih _ (binsFold_shape f.frequencyBins acc hacc)

lemma frameSlice_zero (a : AudioData) (hz : ∀ s ∈ a.samples, s = 0)
    (startFrame : ℤ) (fftSize hopSize frame : ℕ) :
    ∀ v ∈ frameSlice a startFrame fftSize hopSize frame, v = 0 := by
  intro v hv
  unfold frameSlice at hv
  simp only [List.mem_map, List.mem_range] at hv
  obtain ⟨i, _, rfl⟩ := hv
  split_ifs with hc
  · unfold jsIndexD
    split_ifs with hc2
    · exact getD_eq_of_all_eq a.samples 0 hz _
    · rfl
  · rfl

lemma calculateSpectrogram_zero_frames (a : AudioData) (hz : ∀ s ∈ a.samples, s = 0)
    (startTime duration : ℝ) (fftSize hopSize : ℕ) :
    ∀ f ∈ (calculateSpectrogram a startTime duration fftSize hopSize).frames,
      f.frequencyBins = List.replicate (fftSize / 2) DB_CONSTANTS.MIN_DB_DISPLAY := by
  intro f hf
  unfold calculateSpectrogram at hf
  simp only [List.mem_map, List.mem_range] at hf
  obtain ⟨k, _, rfl⟩ := hf
  unfold spectrogramFrame
  simp only
  have hslice := frameSlice_zero a hz ⌊startTime * a.sampleRate⌋ fftSize hopSize k
  exact framePipeline_zero _ fftSize hslice

/-- C4: the global dB range scan walks every dB value of the full-duration
spectrogram ignoring values at or below the display floor; its result is
always a triple of finite reals (never `NaN` or an infinity), and on all-zero
audio it is exactly the fallback
`{minDb = -120, maxDb = 0, dynamicRange = 120}`. -/
theorem calculateGlobalDbRange_spec :
    (∀ a : AudioData, ∃ mn mx dr : ℝ,
      calculateGlobalDbRange a = ⟨(mn : EReal), (mx : EReal), (dr : EReal)⟩) ∧
    (∀ a : AudioData, (∀ s ∈ a.samples, s = 0) →
      calculateGlobalDbRange a =
        ⟨((-120 : ℝ) : EReal), ((0 : ℝ) : EReal), ((120 : ℝ) : EReal)⟩) := by
  constructor
  · intro a
    unfold calculateGlobalDbRange dbScanRange
    simp only
    have hshape := framesFold_shape
      (calculateSpectrogram a 0 a.duration DEFAULTS.FFT_SIZE DEFAULTS.HOP_SIZE).frames
      (⊤, ⊥) ⟨Or.inl rfl, Or.inl rfl⟩
    rcases hshape with ⟨h1 | ⟨r1, h1⟩, h2 | ⟨r2, h2⟩⟩
    · refine ⟨DB_CONSTANTS.MIN_DB_DISPLAY, DB_CONSTANTS.MAX_DB_THEORETICAL,
        DB_CONSTANTS.MAX_DB_THEORETICAL - DB_CONSTANTS.MIN_DB_DISPLAY, ?_⟩
      rw [if_pos h1, if_pos (by rw [h2])]
      have : ((DB_CONSTANTS.MAX_DB_THEORETICAL : ℝ) : EReal) -
          ((DB_CONSTANTS.MIN_DB_DISPLAY : ℝ) : EReal) =
          ((DB_CONSTANTS.MAX_DB_THEORETICAL - DB_CONSTANTS.MIN_DB_DISPLAY : ℝ) : EReal) := by
        exact_mod_cast rfl
      rw [this]
    · refine ⟨DB_CONSTANTS.MIN_DB_DISPLAY, r2, r2 - DB_CONSTANTS.MIN_DB_DISPLAY, ?_⟩
      rw [if_pos h1, if_neg (by rw [h2]; exact EReal.coe_ne_bot r2), h2]
      have : (r2 : EReal) - ((DB_CONSTANTS.MIN_DB_DISPLAY : ℝ) : EReal) =
          ((r2 - DB_CONSTANTS.MIN_DB_DISPLAY : ℝ) : EReal) := by
        exact_mod_cast rfl
      rw [this]
    · refine ⟨r1, DB_CONSTANTS.MAX_DB_THEORETICAL,
        DB_CONSTANTS.MAX_DB_THEORETICAL - r1, ?_⟩
      rw [if_neg (by rw [h1]; exact EReal.coe_ne_top r1), if_pos (by rw [h2]), h1]
      have : ((DB_CONSTANTS.MAX_DB_THEORETICAL : ℝ) : EReal) - (r1 : EReal) =
          ((DB_CONSTANTS.MAX_DB_THEORETICAL - r1 : ℝ) : EReal) := by
        exact_mod_cast rfl
      rw [this]
    · refine ⟨r1, r2, r2 - r1, ?_⟩
      rw [if_neg (by rw [h1]; exact EReal.coe_ne_top r1),
        if_neg (by rw [h2]; exact EReal.coe_ne_bot r2), h1, h2]
      have : (r2 : EReal) - (r1 : EReal) = ((r2 - r1 : ℝ) : EReal) := by
        exact_mod_cast rfl
      rw [this]
  · intro a hz
    unfold calculateGlobalDbRange dbScanRange
    simp only
    have hbins := calculateSpectrogram_zero_frames a hz 0 a.duration
      DEFAULTS.FFT_SIZE DEFAULTS.HOP_SIZE
    have hnone : ∀ f ∈ (calculateSpectrogram a 0 a.duration
        DEFAULTS.FFT_SIZE DEFAULTS.HOP_SIZE).frames,
        ∀ db ∈ f.frequencyBins, ¬ DB_CONSTANTS.MIN_DB_DISPLAY < db := by
      intro f hf db hdb
      rw [hbins f hf] at hdb
      rw [List.eq_of_mem_replicate hdb]
      simp
    rw [framesFold_no_update _ hnone (⊤, ⊥)]
    rw [if_pos rfl, if_pos rfl]
    have h1 : ((DB_CONSTANTS.MIN_DB_DISPLAY : ℝ) : EReal) = ((-120 : ℝ) : EReal) := rfl
    have h2 : ((DB_CONSTANTS.MAX_DB_THEORETICAL : ℝ) : EReal) = ((0 : ℝ) : EReal) := rfl
    rw [h1, h2]
    have h3 : ((0 : ℝ) : EReal) - ((-120 : ℝ) : EReal) = ((120 : ℝ) : EReal) := by
      exact_mod_cast rfl
    rw [h3]

theorem calculateGlobalDbRange_spec_witness :
    (∀ s ∈ (AudioData.mk [] 1 0 1).samples, s = 0) ∧
      calculateGlobalDbRange (AudioData.mk [] 1 0 1) =
        ⟨((-120 : ℝ) : EReal), ((0 : ℝ) : EReal), ((120 : ℝ) : EReal)⟩ :=
  ⟨by simp, calculateGlobalDbRange_spec.2 (AudioData.mk [] 1 0 1) (by simp)⟩

/-- C9: `calculateGlobalDbRange` takes only the audio data; it always builds
its full-duration spectrogram with the fixed defaults `FFT_SIZE = 2048` and
`HOP_SIZE = 512` regardless of what any render uses. -/
theorem calculateGlobalDbRange_fixed_params :
    DEFAULTS.FFT_SIZE = 2048 ∧ DEFAULTS.HOP_SIZE = 512 ∧
    FFT_CONSTANTS.DEFAULT_FFT_SIZE = 2048 ∧ FFT_CONSTANTS.DEFAULT_HOP_SIZE = 512 ∧
    ∀ a : AudioData, calculateGlobalDbRange a =
      dbScanRange (calculateSpectrogram a 0 a.duration 2048 512) :=
  ⟨rfl, rfl, rfl, rfl, fun _ => rfl⟩



/-! ### Peak-preserving downsampling -/

lemma foldl_max_mem (t : List ℝ) : ∀ v : ℝ, t.foldl max v ∈ v :: t := by
  induction t with
  | nil => intro v; simp
  | cons b t ih =>
      intro v
      simp only [List.foldl_cons]
      rcases List.mem_cons.mp (ih (max v b)) with h | h
      · rcases max_choice v b with hm | hm
        · rw [h, hm]; exact List.mem_cons_self _ _
        · rw [h, hm]
          exact List.mem_cons_of_mem _ (List.mem_cons_self _ _)
      · exact List.mem_cons_of_mem _ (List.mem_cons_of_mem _ h)

lemma le_foldl_max (t : List ℝ) : ∀ v : ℝ,
    v ≤ t.foldl max v ∧ ∀ w ∈ t, w ≤ t.foldl max v := by
  induction t with
  | nil => intro v; simp
  | cons b t ih =>
      intro v
      simp only [List.foldl_cons]
      obtain ⟨h1, h2⟩ := ih (max v b)
      refine ⟨le_trans (le_max_left v b) h1, ?_⟩
      intro w hw
      rcases List.mem_cons.mp hw with h | h
      · rw [h]
        exact le_trans (le_max_right v b) h1
      · exact h2 w h

lemma foldl_max_coe (t : List ℝ) : ∀ r : ℝ,
    (t.foldl (fun (acc : EReal) (v : ℝ) => max acc (v : EReal)) (r : EReal)) =
      ((t.foldl max r : ℝ) : EReal) := by
  induction t with
  | nil => intro r; rfl
  | cons b t ih =>
      intro r
      simp only [List.foldl_cons]
      rw [← EReal_coe_max, ih (max r b)]

/-- C5: for a rectangular spectrogram matrix with more frames than the target
width, every output bin of `peakPreservingDownsample` is exactly the maximum
of that bin over the frames of its partition window (and hence not less than
any of them). -/
theorem peakPreservingDownsample_window_max (data : List (List ℝ)) (L targetWidth i b : ℕ)
    (hrect : ∀ row ∈ data, row.length = L)
    (hgt : targetWidth < data.length) (hw : 1 ≤ targetWidth)
    (hi : i < targetWidth) (hb : b < L)
    (hne : downsampleWindowStart data.length targetWidth i <
      downsampleWindowEnd data.length targetWidth i) :
    ((peakPreservingDownsample data targetWidth).getD i []).getD b 0 ∈
      (((data.drop (downsampleWindowStart data.length targetWidth i)).take
        (downsampleWindowEnd data.length targetWidth i -
          downsampleWindowStart data.length targetWidth i)).map fun row => row.getD b 0) ∧
    ∀ v ∈ (((data.drop (downsampleWindowStart data.length targetWidth i)).take
        (downsampleWindowEnd data.length targetWidth i -
          downsampleWindowStart data.length targetWidth i)).map fun row => row.getD b 0),
      v ≤ ((peakPreservingDownsample data targetWidth).getD i []).getD b 0 := by
  set start := downsampleWindowStart data.length targetWidth i with hstart
  set endF := downsampleWindowEnd data.length targetWidth i with hendF
  set window := (data.drop start).take (endF - start) with hwindow
  have hdata_ne : data ≠ [] := by
    intro hnil
    rw [hnil] at hgt
    simp at hgt
  obtain ⟨d0, rest, rfl⟩ := List.exists_cons_of_ne_nil hdata_ne
  have hhead : ((d0 :: rest).headD []).length = L := hrect d0 (List.mem_cons_self d0 rest)
  have hrow : (peakPreservingDownsample (d0 :: rest) targetWidth).getD i [] =
      (List.range ((d0 :: rest).headD []).length).map fun freqIdx =>
        (window.foldl
          (fun acc frame =>
            if freqIdx < frame.length then max acc ((frame.getD freqIdx 0 : ℝ) : EReal)
            else acc) ⊥).toReal := by
    unfold peakPreservingDownsample
    rw [List.getD_eq_getElem?_getD, List.getElem?_map, List.getElem?_range hi]
    simp only [Option.map_some', Option.getD_some]
    rw [if_neg (by omega)]
  have hbin : (((peakPreservingDownsample (d0 :: rest) targetWidth).getD i []).getD b 0) =
      (window.foldl
        (fun acc frame =>
          if b < frame.length then max acc ((frame.getD b 0 : ℝ) : EReal)
          else acc) ⊥).toReal := by
    rw [hrow, List.getD_eq_getElem?_getD, List.getElem?_map,
      List.getElem?_range (by rw [hhead]; exact hb)]
    simp only [Option.map_some', Option.getD_some]
  have hwin_len : ∀ fr ∈ window, b < fr.length := by
    intro fr hfr
    have : fr ∈ d0 :: rest := List.mem_of_mem_drop (List.mem_of_mem_take hfr)
    rw [hrect fr this]
    exact hb
  have hfold_if : (window.foldl
      (fun acc frame =>
        if b < frame.length then max acc ((frame.getD b 0 : ℝ) : EReal) else acc) ⊥) =
      (window.foldl (fun acc frame => max acc ((frame.getD b 0 : ℝ) : EReal)) ⊥) := by
    refine List.foldl_ext _ _ ⊥ fun acc fr hfr => ?_
    rw [if_pos (hwin_len fr hfr)]
  have hfold_map : (window.foldl (fun acc frame => max acc ((frame.getD b 0 : ℝ) : EReal)) ⊥) =
      ((window.map fun row => row.getD b 0).foldl
        (fun (acc : EReal) (v : ℝ) => max acc (v : EReal)) ⊥) := by
    rw [List.foldl_map]
  have hwin_ne : window ≠ [] := by
    have hlen : window.length = min (endF - start) ((d0 :: rest).length - start) := by
      rw [hwindow, List.length_take, List.length_drop]
    have hendle : endF ≤ (d0 :: rest).length := by
      rw [hendF]
      unfold downsampleWindowEnd
      exact min_le_right _ _
    intro hnil
    rw [hnil] at hlen
    simp only [List.length_nil] at hlen
    omega
  obtain ⟨v0, vrest, hvals⟩ := List.exists_cons_of_ne_nil
    (fun hnil => hwin_ne (List.map_eq_nil_iff.mp hnil) :
      (window.map fun row => row.getD b 0) ≠ [])
  have hfold_val : ((window.map fun row => row.getD b 0).foldl
      (fun (acc : EReal) (v : ℝ) => max acc (v : EReal)) ⊥) =
      ((vrest.foldl max v0 : ℝ) : EReal) := by
    rw [hvals]
    simp only [List.foldl_cons]
    rw [max_eq_right (bot_le : (⊥ : EReal) ≤ (v0 : ℝ)), foldl_max_coe]
  have hval : (((peakPreservingDownsample (d0 :: rest) targetWidth).getD i []).getD b 0) =
      vrest.foldl max v0 := by
    rw [hbin, hfold_if, hfold_map, hfold_val, EReal.toReal_coe]
  constructor
  · rw [hval, hvals]
    exact foldl_max_mem vrest v0
  · intro v hv
    rw [hvals] at hv
    rw [hval]
    rcases List.mem_cons.mp hv with h | h
    · exact h ▸ (le_foldl_max vrest v0).1
    · exact (le_foldl_max vrest v0).2 v h

theorem peakPreservingDownsample_window_max_witness :
    (∀ row ∈ [[(1 : ℝ)], [(3 : ℝ)]], row.length = 1) ∧
    (downsampleWindowStart 2 1 0 < downsampleWindowEnd 2 1 0) ∧
    ((peakPreservingDownsample [[(1 : ℝ)], [(3 : ℝ)]] 1).getD 0 []).getD 0 0 ∈
      ((([[(1 : ℝ)], [(3 : ℝ)]].drop (downsampleWindowStart 2 1 0)).take
        (downsampleWindowEnd 2 1 0 - downsampleWindowStart 2 1 0)).map
          fun row => row.getD 0 0) ∧
    (3 : ℝ) ≤ ((peakPreservingDownsample [[(1 : ℝ)], [(3 : ℝ)]] 1).getD 0 []).getD 0 0 := by
  have hrect : ∀ row ∈ [[(1 : ℝ)], [(3 : ℝ)]], row.length = 1 := by
    intro row hrow
    rcases List.mem_cons.mp hrow with h | h
    · rw [h]; rfl
    · rcases List.mem_cons.mp h with h2 | h2
      · rw [h2]; rfl
      · simp at h2
  have hstart : downsampleWindowStart 2 1 0 = 0 := by
    unfold downsampleWindowStart
    norm_num
  have hendF : downsampleWindowEnd 2 1 0 = 2 := by
    unfold downsampleWindowEnd
    norm_num
  have hne : downsampleWindowStart 2 1 0 < downsampleWindowEnd 2 1 0 := by
    rw [hstart, hendF]; norm_num
  have hmain := peakPreservingDownsample_window_max [[(1 : ℝ)], [(3 : ℝ)]] 1 1 0 0
    hrect (by norm_num) (by norm_num) (by norm_num) (by norm_num) hne
  refine ⟨hrect, hne, hmain.1, ?_⟩
  refine hmain.2 3 ?_
  have hlen2 : ([[(1 : ℝ)], [(3 : ℝ)]] : List (List ℝ)).length = 2 := rfl
  rw [hlen2, hstart, hendF]
  norm_num

/-! ### Temporal resampling identity -/

/-- C6: when the frame count already equals the target width,
`resampleSpectrogram` returns the input matrix unchanged. -/
theorem resampleSpectrogram_identity (data : List (List ℝ)) (targetWidth : ℕ)
    (h : data.length = targetWidth) : resampleSpectrogram data targetWidth = data := by
  unfold resampleSpectrogram
  by_cases h0 : data.length = 0
  · rw [if_pos h0]
    exact (List.length_eq_zero.mp h0).symm
  · rw [if_neg h0, if_pos h]

theorem resampleSpectrogram_identity_witness :
    ([[(1 : ℝ), 2], [(3 : ℝ), 4]].length = 2) ∧
      resampleSpectrogram [[(1 : ℝ), 2], [(3 : ℝ), 4]] 2 = [[(1 : ℝ), 2], [(3 : ℝ), 4]] :=
  ⟨rfl, resampleSpectrogram_identity [[(1 : ℝ), 2], [(3 : ℝ), 4]] 2 rfl⟩

/-! ### The heat palette -/

/-- C8: the heat palette sends `t = 0` to black `(0,0,0)` and `t = 1` to white
`(255,255,255)`, through three linear segments: black→red below `0.33`,
red→yellow below `0.67`, yellow→white above. -/
theorem heatMap_spec :
    heatMap 0 = ⟨0, 0, 0⟩ ∧ heatMap 1 = ⟨255, 255, 255⟩ ∧
    (∀ t : ℝ, 0 ≤ t → t < 0.33 → heatMap t = ⟨⌊t / 0.33 * 255⌋, 0, 0⟩) ∧
    (∀ t : ℝ, 0.33 ≤ t → t < 0.67 → heatMap t = ⟨255, ⌊(t - 0.33) / 0.34 * 255⌋, 0⟩) ∧
    (∀ t : ℝ, 0.67 ≤ t → t ≤ 1 → heatMap t = ⟨255, 255, ⌊(t - 0.67) / 0.33 * 255⌋⟩) := by
  have hclamp : ∀ t : ℝ, 0 ≤ t → t ≤ 1 → max 0 (min 1 t) = t := by
    intro t h0 h1
    rw [min_eq_right h1, max_eq_right h0]
  refine ⟨?_, ?_, ?_, ?_, ?_⟩
  · unfold heatMap
    rw [hclamp 0 le_rfl (by norm_num), if_pos (by norm_num)]
    norm_num
  · unfold heatMap
    rw [hclamp 1 (by norm_num) le_rfl, if_neg (by norm_num), if_neg (by norm_num)]
    have : ((1 : ℝ) - 0.67) / 0.33 * 255 = 255 := by norm_num
    rw [this]
    norm_num
  · intro t h0 h1
    unfold heatMap
    rw [hclamp t h0 (by linarith [h1] : t ≤ 1), if_pos h1]
  · intro t h0 h1
    unfold heatMap
    rw [hclamp t (by linarith) (by linarith : t ≤ 1), if_neg (by linarith), if_pos h1]
  · intro t h0 h1
    unfold heatMap
    rw [hclamp t (by linarith) h1, if_neg (by linarith), if_neg (by linarith)]

theorem heatMap_spec_witness :
    ((0 : ℝ) ≤ 0.1 ∧ (0.1 : ℝ) < 0.33 ∧ heatMap 0.1 = ⟨⌊(0.1 : ℝ) / 0.33 * 255⌋, 0, 0⟩) ∧
    ((0.33 : ℝ) ≤ 0.5 ∧ (0.5 : ℝ) < 0.67 ∧
      heatMap 0.5 = ⟨255, ⌊((0.5 : ℝ) - 0.33) / 0.34 * 255⌋, 0⟩) ∧
    ((0.67 : ℝ) ≤ 0.8 ∧ (0.8 : ℝ) ≤ 1 ∧
      heatMap 0.8 = ⟨255, 255, ⌊((0.8 : ℝ) - 0.67) / 0.33 * 255⌋⟩) :=
  ⟨⟨by norm_num, by norm_num, heatMap_spec.2.2.1 0.1 (by norm_num) (by norm_num)⟩,
   ⟨by norm_num, by norm_num, heatMap_spec.2.2.2.1 0.5 (by norm_num) (by norm_num)⟩,
   ⟨by norm_num, by norm_num, heatMap_spec.2.2.2.2 0.8 (by norm_num) (by norm_num)⟩⟩



/-! ### Missing power-of-two validation -/

/-- C1 (behavior of the code at the failing input): with the non-power-of-two
`fftSize = 3`, `calculateSpectrogram` performs frame processing and returns a
populated spectrogram of 6 frames; no rejection path exists anywhere in the
pipeline. -/
theorem calculateSpectrogram_fftSize_three_runs :
    (calculateSpectrogram (AudioData.mk (List.replicate 8 0) 1 8 1) 0 8 3 1).frames.length
      = 6 := by
  unfold calculateSpectrogram
  simp only [List.length_map, List.length_range]
  norm_num
  rfl

/-! ### The rasterizer dB read -/

/-- C7 (amended): for every output pixel the rasterizer reads the dB value of
the selected resampled column at the bin resolved by `getFrequencyIndex`, but
through the JS falsy coalescing `frame[freqIndex] || minDb`: the read
substitutes `minDb` both when the bin index falls outside the column and when
the stored value is exactly `0`; only an in-bounds nonzero stored value is
used as-is. -/
theorem rasterPixelDb_read (resampledData : List (List ℝ)) (width height : ℕ)
    (scale : FrequencyScale) (sampleRate : ℝ) (minFrequency maxFrequency : Option ℝ)
    (minDb : ℝ) (x y : ℕ) (frame : List ℝ) (k : ℤ)
    (hframe : frame = resampledData.getD
      (min ⌊(x : ℝ) * (resampledData.length : ℝ) / (width : ℝ)⌋₊ (resampledData.length - 1)) [])
    (hk : k = getFrequencyIndex y height frame.length scale sampleRate
      minFrequency maxFrequency) :
    (0 ≤ k → k < (frame.length : ℤ) → frame.getD k.toNat 0 ≠ 0 →
      rasterPixelDb resampledData width height scale sampleRate minFrequency maxFrequency
        minDb x y = frame.getD k.toNat 0) ∧
    ((k < 0 ∨ (frame.length : ℤ) ≤ k) →
      rasterPixelDb resampledData width height scale sampleRate minFrequency maxFrequency
        minDb x y = minDb) ∧
    (0 ≤ k → k < (frame.length : ℤ) → frame.getD k.toNat 0 = 0 →
      rasterPixelDb resampledData width height scale sampleRate minFrequency maxFrequency
        minDb x y = minDb) := by
  have hdb : rasterPixelDb resampledData width height scale sampleRate minFrequency
      maxFrequency minDb x y = jsOrDefault (jsIndex frame k) minDb := by
    rw [hk, hframe]
    rfl
  refine ⟨?_, ?_, ?_⟩
  · intro h0 hlt hnz
    rw [hdb]
    unfold jsIndex
    rw [if_pos ⟨h0, hlt⟩]
    unfold jsOrDefault
    simp only
    rw [if_neg hnz]
  · intro h
    rw [hdb]
    unfold jsIndex
    rw [if_neg (by omega : ¬(0 ≤ k ∧ k < (frame.length : ℤ)))]
    rfl
  · intro h0 hlt hz
    rw [hdb]
    unfold jsIndex
    rw [if_pos ⟨h0, hlt⟩]
    unfold jsOrDefault
    simp only
    rw [if_pos hz]

lemma getFrequencyIndex_linear_bottom (numFrequencies : ℕ) (sampleRate : ℝ) :
    getFrequencyIndex 1 2 numFrequencies FrequencyScale.linear sampleRate none none = 0 := by
  unfold getFrequencyIndex
  simp only [Option.isSome_none]
  rw [if_neg (by simp)]
  have hny : (((2 : ℕ) : ℝ) - 1 - ((1 : ℕ) : ℝ)) / (((2 : ℕ) : ℝ) - 1) = 0 := by norm_num
  simp only [hny]
  norm_num

/-- C7 (counterexample to the claim as stated): over the single resampled
column `[0]` at pixel `(0, 1)` the resolved bin index `0` is in bounds and the
stored dB value is `0`, but the value used for normalization is `minDb = -120`,
strictly less than the stored value. -/
theorem rasterPixelDb_zero_counterexample :
    getFrequencyIndex 1 2 1 FrequencyScale.linear 8 none none = 0 ∧
    ([(0 : ℝ)].getD 0 0 = 0) ∧
    rasterPixelDb [[(0 : ℝ)]] 1 2 FrequencyScale.linear 8 none none (-120) 0 1 <
      [(0 : ℝ)].getD 0 0 := by
  refine ⟨getFrequencyIndex_linear_bottom 1 8, rfl, ?_⟩
  have hidx : jsIndex [(0 : ℝ)] 0 = some 0 := by
    unfold jsIndex
    rw [if_pos (by norm_num)]
    rfl
  simp only [rasterPixelDb]
  norm_num [getFrequencyIndex_linear_bottom 1 8, hidx, jsOrDefault]

theorem rasterPixelDb_read_witness :
    rasterPixelDb [[(5 : ℝ)]] 1 2 FrequencyScale.linear 8 none none (-120) 0 1 =
        [(5 : ℝ)].getD (0 : ℤ).toNat 0 ∧
      rasterPixelDb ([] : List (List ℝ)) 1 2 FrequencyScale.linear 8 none none (-120) 0 1 =
        -120 ∧
      rasterPixelDb [[(0 : ℝ)]] 1 2 FrequencyScale.linear 8 none none (-120) 0 1 = -120 := by
  refine ⟨?_, ?_, ?_⟩
  · exact (rasterPixelDb_read [[(5 : ℝ)]] 1 2 FrequencyScale.linear 8 none none (-120) 0 1
      [(5 : ℝ)] 0 (by norm_num)
      (by simpa using (getFrequencyIndex_linear_bottom 1 8).symm)).1
      (by norm_num) (by norm_num) (by norm_num)
  · exact (rasterPixelDb_read ([] : List (List ℝ)) 1 2 FrequencyScale.linear 8 none none
      (-120) 0 1 [] 0 (by norm_num)
      (by simpa using (getFrequencyIndex_linear_bottom 0 8).symm)).2.1
      (Or.inr (by norm_num))
  · exact (rasterPixelDb_read [[(0 : ℝ)]] 1 2 FrequencyScale.linear 8 none none (-120) 0 1
      [(0 : ℝ)] 0 (by norm_num)
      (by simpa using (getFrequencyIndex_linear_bottom 1 8).symm)).2.2
      (by norm_num) (by norm_num) rfl

/-! ### The hard-coded Hanning window -/

/-- C10: the spectrogram pipeline windows every frame with the Hanning window:
`applyWindow` with `WindowType.hanning` multiplies sample `i` by
`0.5·(1 - cos(2π·i/(N-1)))`, every frame built by `calculateSpectrogram` goes
through `applyWindow … WindowType.hanning` (the window kind is hard-coded at
the call site, so no other window branch is reachable from the pipeline). -/
theorem calculateSpectrogram_hanning :
    (∀ (samples : List ℝ) (i : ℕ), i < samples.length →
      (applyWindow samples WindowType.hanning).getD i 0 =
        samples.getD i 0 *
          (0.5 * (1 - Real.cos ((2 * π * (i : ℝ)) / ((samples.length : ℝ) - 1))))) ∧
    (∀ (a : AudioData) (startTime : ℝ) (startFrame : ℤ) (fftSize hopSize frame : ℕ),
      (spectrogramFrame a startTime startFrame fftSize hopSize frame).frequencyBins =
        (convertToDBSpectrum
          (calculatePowerSpectrum
            (performFFT (applyWindow (frameSlice a startFrame fftSize hopSize frame)
              WindowType.hanning))
            fftSize) fftSize).dbValues) ∧
    (∀ (a : AudioData) (startTime duration : ℝ) (fftSize hopSize k : ℕ),
      k < (calculateSpectrogram a startTime duration fftSize hopSize).frames.length →
      (calculateSpectrogram a startTime duration fftSize hopSize).frames.getD k
          (SpectrogramFrame.mk [] 0 0) =
        spectrogramFrame a startTime ⌊startTime * a.sampleRate⌋ fftSize hopSize k) := by
  refine ⟨?_, fun _ _ _ _ _ _ => rfl, ?_⟩
  · intro samples i hi
    unfold applyWindow
    rw [List.getD_eq_getElem?_getD, List.getElem?_map, List.getElem?_range (by simpa using hi)]
    simp only [Option.map_some', Option.getD_some]
    rfl
  · intro a startTime duration fftSize hopSize k hk
    unfold calculateSpectrogram at hk ⊢
    simp only [List.length_map, List.length_range] at hk
    rw [List.getD_eq_getElem?_getD, List.getElem?_map, List.getElem?_range hk]
    rfl

theorem calculateSpectrogram_hanning_witness :
    (0 < [(2 : ℝ), 3].length) ∧
    ((applyWindow [(2 : ℝ), 3] WindowType.hanning).getD 0 0 =
      [(2 : ℝ), 3].getD 0 0 *
        (0.5 * (1 - Real.cos ((2 * π * ((0 : ℕ) : ℝ)) / (([(2 : ℝ), 3].length : ℝ) - 1))))) ∧
    (0 < (calculateSpectrogram (AudioData.mk [0] 1 1 1) 0 1 1 1).frames.length) ∧
    ((calculateSpectrogram (AudioData.mk [0] 1 1 1) 0 1 1 1).frames.getD 0
        (SpectrogramFrame.mk [] 0 0) =
      spectrogramFrame (AudioData.mk [0] 1 1 1) 0 ⌊(0 : ℝ) * (1 : ℝ)⌋ 1 1 0) := by
  have hlen : (calculateSpectrogram (AudioData.mk [0] 1 1 1) 0 1 1 1).frames.length = 1 := by
    unfold calculateSpectrogram
    simp only [List.length_map, List.length_range]
    norm_num
  refine ⟨by norm_num, ?_, by rw [hlen]; norm_num, ?_⟩
  · exact calculateSpectrogram_hanning.1 [(2 : ℝ), 3] 0 (by norm_num)
  · exact calculateSpectrogram_hanning.2.2 (AudioData.mk [0] 1 1 1) 0 1 1 1 0
      (by rw [hlen]; norm_num)


end Spectrogram
